import Mathlib

/- Shallow embedding of tensorflow/core/common_runtime/replicate_constants_pass.cc.

   Machine integers (int64_t) are modelled as Int with explicit bounds where
   overflow matters.  Device names and node names are Lean Strings; the
   btree_map's byte-lexicographic string order is implemented explicitly
   (strLt below) so that it evaluates inside the kernel.

   The pass iterates `for (Node* node : graph->nodes())`.  A range-for
   evaluates `graph->nodes()` once, so the end iterator is fixed at the
   number of node ids present when the loop starts.  Nodes created by the
   pass either get fresh ids at or beyond that bound or reuse ids of nodes
   the loop has already passed (the free list only ever holds ids of
   already-visited, removed constants), so newly created replicas are never
   themselves visited.  The driver is therefore modelled as a fold over the
   snapshot of node ids taken when the loop starts. -/

namespace ReplicateConstants

/-- Largest int64_t value, std::numeric_limits of int64_t max. -/
def int64Max : Int := 9223372036854775807

/-- Smallest int64_t value, std::numeric_limits of int64_t min. -/
def int64Min : Int := -9223372036854775808

/-- Maximum size constant to replicate (kMaxSize in the source). -/
def kMaxSize : Int := 16

/-- A TensorShapeProto: dimension sizes as declared in the proto (possibly
    negative or oversized, hence Int) plus the unknown_rank flag. -/
structure TensorShapeProto where
  dims : List Int
  unknownRank : Bool
deriving DecidableEq

/-- Accumulating walk of TensorShape::InitDims: rejects a negative dimension
    and rejects an element-count product that overflows int64_t, exactly as
    MultiplyWithoutOverflow does step by step. -/
def numElemAux : Int → List Int → Option Int
  | acc, [] => some acc
  | acc, d :: ds =>
    if d < 0 then none
    else if acc * d > int64Max then none
    else numElemAux (acc * d) ds

/-- TensorShape::BuildTensorShape composed with TensorShape::num_elements():
    fails (returns none) on an unknown-rank proto, a negative dimension, or
    int64 overflow; otherwise yields the element count. -/
def buildShapeNumElements (p : TensorShapeProto) : Option Int :=
  if p.unknownRank then none else numElemAux 1 p.dims

/-- A graph node: id, name, IsConstant() discriminator, assigned device
    (none models !has_assigned_device_name()), and the tensor shape stored
    in the "value" attribute (none models a missing attribute). -/
structure Node where
  nid : Nat
  name : String
  isConstant : Bool
  device : Option String
  value : Option TensorShapeProto
deriving DecidableEq

/-- A graph edge: source node id, source output slot, destination node id,
    destination input slot.  Control edges use slot kControlSlot = -1. -/
structure Edge where
  src : Nat
  srcOut : Int
  dst : Nat
  dstIn : Int
deriving DecidableEq

/-- Edge::IsControlEdge(): src_output == Graph::kControlSlot (= -1). -/
def Edge.isControlEdge (e : Edge) : Bool := e.srcOut == -1

/-- The graph: node list (in node-id order, the iteration order of
    graph->nodes()), edge list, the next fresh node id, and Graph's
    name_counter_ used by Graph::NewName. -/
structure Graph where
  nodes : List Node
  edges : List Edge
  nextId : Nat
  nameCounter : Nat
deriving DecidableEq

/-- Node lookup by id. -/
def Graph.getNode (g : Graph) (i : Nat) : Option Node :=
  g.nodes.find? (fun x => x.nid == i)

/-- node->out_edges(). -/
def Graph.outEdges (g : Graph) (n : Node) : List Edge :=
  g.edges.filter (fun e => e.src == n.nid)

/-- node->in_edges() mapped to source ids: node->in_nodes() (one entry per
    in-edge, duplicates included, as in TF's NeighborIter). -/
def Graph.inNodeIds (g : Graph) (i : Nat) : List Nat :=
  (g.edges.filter (fun e => e.dst == i)).map (fun e => e.src)

/-- Placeholder node used when an edge endpoint is dangling; real TF graphs
    never contain such edges (see Graph.WF below). -/
def defaultNode (i : Nat) : Node :=
  { nid := i, name := "", isConstant := false, device := none, value := none }

/-- edge->dst(). -/
def Graph.destNode (g : Graph) (e : Edge) : Node :=
  (g.getNode e.dst).getD (defaultNode e.dst)

/-- Graph::RemoveNode: removes the node and detaches all its in- and
    out-edges. -/
def Graph.removeNode (g : Graph) (i : Nat) : Graph :=
  { g with
    nodes := g.nodes.filter (fun x => x.nid != i)
    edges := g.edges.filter (fun e => e.src != i && e.dst != i) }

/-- Modelled from the spec: the Device Name Resolver of spec section 4.2 and
    the device-name transformation capability of spec section 6.  The
    implementations of DeviceNameUtils::ParseFullName (whose type component
    backs HasCpuDevice) and DeviceNameUtils::DeviceNameToCpuDeviceName are
    not part of this repository excerpt; the spec treats both as an external,
    pure, fallible capability of the host's device-naming scheme.
    `parsedType` returns the type component of a device name, none when the
    name cannot be parsed; `toCpu` returns the co-located CPU device name,
    none when the name cannot be parsed or transformed. -/
structure DeviceNameResolver where
  parsedType : String → Option String
  toCpu : String → Option String

/-- HasControlOut: `node` has an output control edge. -/
def hasControlOut (g : Graph) (n : Node) : Bool :=
  (g.outEdges n).any (fun e => e.isControlEdge)

/-- HasCpuDevice: `node`'s assigned device parses and its type is "CPU".
    An unassigned device reads as the empty string, as
    node->assigned_device_name() does. -/
def hasCpuDevice (R : DeviceNameResolver) (n : Node) : Bool :=
  match R.parsedType (n.device.getD "") with
  | none => false
  | some t => t == "CPU"

/-- Error kinds surfaced by the pass (absl Status payloads abbreviated to
    the data they carry). -/
inductive Err where
  | noAssignedDevice (nodeName : String)
  | malformedDeviceName (device : String)
  | missingValueAttr (nodeName : String)
  | malformedTensorShape (nodeName : String)
deriving DecidableEq

/-- GetDestinationCpuDevice: the CPU device on the same host as dst.
    Fails when dst has no assigned device, or when
    DeviceNameToCpuDeviceName fails on the assigned name. -/
def getDestinationCpuDevice (R : DeviceNameResolver) (dst : Node) : Except Err String :=
  match dst.device with
  | none => .error (.noAssignedDevice dst.name)
  | some d =>
    match R.toCpu d with
    | none => .error (.malformedDeviceName d)
    | some c => .ok c

/-- Byte-lexicographic order on char lists (std::string's operator<). -/
def strLtAux : List Char → List Char → Bool
  | [], [] => false
  | [], _ :: _ => true
  | _ :: _, [] => false
  | a :: as, b :: bs =>
    if a.toNat < b.toNat then true
    else if b.toNat < a.toNat then false
    else strLtAux as bs

/-- Byte-lexicographic order on strings (std::string's operator<, the key
    order of absl::btree_map<std::string, ...>). -/
def strLt (a b : String) : Bool := strLtAux a.data b.data

/-- Insertion into the device_to_edges btree_map, keeping keys in
    ascending strLt order; an existing bucket gets the edge appended. -/
def btreeInsert : List (String × List Edge) → String → Edge → List (String × List Edge)
  | [], dev, e => [(dev, [e])]
  | (k, es) :: rest, dev, e =>
    if strLt dev k then (dev, [e]) :: (k, es) :: rest
    else if dev == k then (k, es ++ [e]) :: rest
    else (k, es) :: btreeInsert rest dev e

/-- Loop body of GetSuccessorEdges: resolve each successor edge's
    destination device and group the edge under it, propagating the first
    resolution error. -/
def groupEdges (R : DeviceNameResolver) (g : Graph) :
    List Edge → List (String × List Edge) → Except Err (List (String × List Edge))
  | [], acc => .ok acc
  | e :: es, acc =>
    match getDestinationCpuDevice R (g.destNode e) with
    | .error err => .error err
    | .ok dev => groupEdges R g es (btreeInsert acc dev e)

/-- GetSuccessorEdges: collect the successor edges of the constant, grouped
    by the destination's co-located CPU device. -/
def getSuccessorEdges (R : DeviceNameResolver) (g : Graph) (n : Node) :
    Except Err (List (String × List Edge)) :=
  groupEdges R g (g.outEdges n) []

/-- One iteration of ReplicateToEachDevice's loop over device_to_edges:
    CopyNode, SetUniqueName (name becomes
    <original-name>/replicate/_<name_counter_++> via Graph::NewName),
    set_assigned_device_name, rewire the group's data edges to the copy,
    and add a control edge to the copy from every in-node of the
    original (AddControlEdge with allow_duplicates). -/
def replicateGroup (orig : Node) (g : Graph) (pair : String × List Edge) : Graph :=
  let copy : Node :=
    { orig with
      nid := g.nextId
      name := orig.name ++ "/replicate/_" ++ toString g.nameCounter
      device := some pair.1 }
  let g1 : Graph :=
    { g with
      nodes := g.nodes ++ [copy]
      nextId := g.nextId + 1
      nameCounter := g.nameCounter + 1 }
  let g2 : Graph :=
    { g1 with
      edges := g1.edges ++ pair.2.map (fun e => { src := copy.nid, srcOut := e.srcOut, dst := e.dst, dstIn := e.dstIn }) }
  { g2 with
    edges := g2.edges ++ (g2.inNodeIds orig.nid).map (fun p => { src := p, srcOut := -1, dst := copy.nid, dstIn := -1 }) }

/-- ReplicateToEachDevice: replicate the constant once per successor device
    then remove the original node. -/
def replicateToEachDevice (g : Graph) (n : Node) (groups : List (String × List Edge)) : Graph :=
  (groups.foldl (replicateGroup n) g).removeNode n.nid

/-- The state threaded through ReplicateConstantsPass::Run's loop: the graph
    plus the min_skipped / max_skipped diagnostics. -/
structure PassState where
  graph : Graph
  minSkipped : Int
  maxSkipped : Int
deriving DecidableEq

/-- Body of ReplicateConstantsPass::Run's per-node loop, in source order:
    skip non-constants, skip out-degree <= 1, skip constants with a control
    successor, fail on a missing "value" attribute or unbuildable shape,
    skip (recording diagnostics) constants above kMaxSize, skip constants
    with no assigned device or a non-CPU device, group successor edges per
    device (propagating resolution failures), skip single-device fan-out,
    otherwise replicate. -/
def processNode (R : DeviceNameResolver) (s : PassState) (i : Nat) : Except Err PassState :=
  match s.graph.getNode i with
  | none => .ok s
  | some n =>
    if !n.isConstant then .ok s
    else if (s.graph.outEdges n).length ≤ 1 then .ok s
    else if hasControlOut s.graph n then .ok s
    else
      match n.value with
      | none => .error (.missingValueAttr n.name)
      | some proto =>
        match buildShapeNumElements proto with
        | none => .error (.malformedTensorShape n.name)
        | some ne =>
          if ne > kMaxSize then
            .ok { s with
              minSkipped := min s.minSkipped ne
              maxSkipped := max s.maxSkipped ne }
          else if n.device.isNone then .ok s
          else if !hasCpuDevice R n then .ok s
          else
            match getSuccessorEdges R s.graph n with
            | .error err => .error err
            | .ok groups =>
              if groups.length ≤ 1 then .ok s
              else .ok { s with graph := replicateToEachDevice s.graph n groups }

/-- The pass's node loop over the snapshot of node ids, stopping at the
    first error (TF_RETURN_IF_ERROR). -/
def runNodes (R : DeviceNameResolver) : PassState → List Nat → PassState × Option Err
  | s, [] => (s, none)
  | s, i :: rest =>
    match processNode R s i with
    | .error e => (s, some e)
    | .ok s' => runNodes R s' rest

/-- Result of a run: the (in-place mutated) graph, the optional
    skipped-size diagnostic summary, and the returned status. -/
structure RunResult where
  graph : Graph
  summary : Option (Int × Int)
  err : Option Err
deriving DecidableEq

/-- Initial loop state: min_skipped = int64 max, max_skipped = int64 min. -/
def initialState (g : Graph) : PassState :=
  { graph := g, minSkipped := int64Max, maxSkipped := int64Min }

/-- ReplicateConstantsPass::Run on a present graph: run the loop over the
    node-id snapshot; on success emit the skipped-size summary exactly when
    min_skipped moved off its sentinel. -/
def runPass (R : DeviceNameResolver) (g : Graph) : RunResult :=
  match runNodes R (initialState g) (g.nodes.map (fun x => x.nid)) with
  | (s, some e) => { graph := s.graph, summary := none, err := some e }
  | (s, none) =>
    { graph := s.graph
      summary := if s.minSkipped != int64Max then some (s.minSkipped, s.maxSkipped) else none
      err := none }

/-- ReplicateConstantsPass::Run including the initial
    `if (options.graph == nullptr) return OkStatus();` guard. -/
def runPassOptions (R : DeviceNameResolver) :
    Option Graph → Option Graph × Option (Int × Int) × Option Err
  | none => (none, none, none)
  | some g =>
    let r := runPass R g
    (some r.graph, r.summary, r.err)

/- Specification-side definitions: validity conditions, observers and closed
   forms used to state and prove the properties.  Nothing below is part of
   the translated pass. -/

/-- Validity conditions every graph produced by the TF graph constructor
    satisfies: node ids are distinct and below the next-id watermark, every
    edge's endpoints are present, an edge is either a control edge (both
    slots kControlSlot = -1) or a data edge (both slots nonnegative), a
    data input slot has at most one incoming edge, and a data edge never
    feeds a Constant node (Const ops have no input ports). -/
abbrev Graph.WF (g : Graph) : Prop :=
  (g.nodes.map Node.nid).Nodup ∧
  (∀ x ∈ g.nodes, x.nid < g.nextId) ∧
  (∀ e ∈ g.edges, (∃ x ∈ g.nodes, x.nid = e.src) ∧ ∃ x ∈ g.nodes, x.nid = e.dst) ∧
  (∀ e ∈ g.edges, (e.srcOut = -1 ∧ e.dstIn = -1) ∨ (0 ≤ e.srcOut ∧ 0 ≤ e.dstIn)) ∧
  (∀ e ∈ g.edges, 0 ≤ e.dstIn →
    (g.edges.filter (fun f => f.dst == e.dst && f.dstIn == e.dstIn)).length ≤ 1) ∧
  (∀ e ∈ g.edges, e.isControlEdge = false → ∀ x ∈ g.nodes, x.nid = e.dst → x.isConstant = false)

/-- Observer: the element count recorded by the size test at node i of
    graph g, none when the node is not skipped by the size test.  Mirrors
    the guard conditions on the size-skip branch of processNode. -/
def sizeSkipOf (g : Graph) (i : Nat) : Option Int :=
  match g.getNode i with
  | none => none
  | some n =>
    if !n.isConstant then none
    else if (g.outEdges n).length ≤ 1 then none
    else if hasControlOut g n then none
    else
      match n.value with
      | none => none
      | some proto =>
        match buildShapeNumElements proto with
        | none => none
        | some ne => if ne > kMaxSize then some ne else none

/-- Observer: the element counts recorded by the size test over a run of
    the node loop, in iteration order (empty past the first error, where
    the run stops). -/
def runNodesLog (R : DeviceNameResolver) : PassState → List Nat → List Int
  | _, [] => []
  | s, i :: rest =>
    match processNode R s i with
    | .error _ => []
    | .ok s' => (sizeSkipOf s.graph i).toList ++ runNodesLog R s' rest

/-- A node the pass leaves untouched: it fails one of the eligibility
    tests 1, 2, 3 of the pass, or it passes the attribute and shape reads
    and then fails one of tests 4, 5, 6, 7.  Such nodes neither raise an
    error nor mutate the graph. -/
def StableSkip (R : DeviceNameResolver) (g : Graph) (x : Node) : Prop :=
  x.isConstant = false
  ∨ (g.outEdges x).length ≤ 1
  ∨ hasControlOut g x = true
  ∨ (∃ proto ne, x.value = some proto ∧ buildShapeNumElements proto = some ne ∧
      (ne > kMaxSize
       ∨ x.device = none
       ∨ hasCpuDevice R x = false
       ∨ ∃ groups, getSuccessorEdges R g x = .ok groups ∧ groups.length ≤ 1))

/-- Closed form of the replica made for one device group: CopyNode with a
    fresh id, SetUniqueName with the counter value c, assigned to dev. -/
def mkCopy (orig : Node) (nid c : Nat) (dev : String) : Node :=
  { orig with
    nid := nid
    name := orig.name ++ "/replicate/_" ++ toString c
    device := some dev }

/-- Closed form of the data edges rewired to the replica with id cid. -/
def dataEdgesTo (cid : Nat) (es : List Edge) : List Edge :=
  es.map (fun e => { src := cid, srcOut := e.srcOut, dst := e.dst, dstIn := e.dstIn })

/-- Closed form of the control edges added into the replica with id cid,
    one per in-edge of the original. -/
def ctrlEdgesTo (inN : List Nat) (cid : Nat) : List Edge :=
  inN.map (fun p => { src := p, srcOut := -1, dst := cid, dstIn := -1 })

/-- Closed form of ReplicateToEachDevice's loop: the replica nodes and the
    added edges, for device groups processed starting at node id nid and
    name counter c, when the original's in-edge list is inN throughout. -/
def copiesFrom (orig : Node) (inN : List Nat) :
    Nat → Nat → List (String × List Edge) → List Node × List Edge
  | _, _, [] => ([], [])
  | nid, c, (k, es) :: rest =>
    let t := copiesFrom orig inN (nid + 1) (c + 1) rest
    (mkCopy orig nid c k :: t.1, (dataEdgesTo nid es ++ ctrlEdgesTo inN nid) ++ t.2)

/-- A concrete resolver for the test graphs below.  Host a has CPUs "a0"
    and "a1" and a GPU "g0"; host b has CPU "b0"; any other name is
    unparseable.  DeviceNameToCpuDeviceName maps a device to CPU 0 of its
    host. -/
def toyR : DeviceNameResolver where
  parsedType s :=
    if s = "a0" ∨ s = "a1" ∨ s = "b0" then some "CPU"
    else if s = "g0" then some "GPU" else none
  toCpu s :=
    if s = "a0" ∨ s = "a1" ∨ s = "g0" then some "a0"
    else if s = "b0" then some "b0" else none

/-- A fully defined shape proto with the given dimensions. -/
def shp (l : List Int) : TensorShapeProto := { dims := l, unknownRank := false }

deriving instance DecidableEq for Except

/-- The graph state reached in gBad just before constant "B" is processed:
    constant "A" has been replicated onto hosts a and b and removed. -/
def gBad1 : Graph :=
  { nodes :=
      [ { nid := 1, name := "k1", isConstant := false, device := some "a0", value := none }
      , { nid := 2, name := "k2", isConstant := false, device := some "b0", value := none }
      , { nid := 3, name := "B", isConstant := true, device := some "a0", value := some (shp [3]) }
      , { nid := 4, name := "kx", isConstant := false, device := some "xx", value := none }
      , { nid := 5, name := "ky", isConstant := false, device := some "b0", value := none }
      , { nid := 6, name := "A/replicate/_0", isConstant := true, device := some "a0",
          value := some (shp [2]) }
      , { nid := 7, name := "A/replicate/_1", isConstant := true, device := some "b0",
          value := some (shp [2]) } ]
    edges := [⟨3, 0, 4, 0⟩, ⟨3, 0, 5, 0⟩, ⟨6, 0, 1, 0⟩, ⟨7, 0, 2, 0⟩]
    nextId := 8
    nameCounter := 2 }

/-- Test graph: constant "C" with 4 elements and three data consumers, two
    on host a's CPU and one on host b's CPU (the spec's main scenario, with
    the consumers on two hosts so that two device groups arise). -/
def gEx : Graph :=
  { nodes :=
      [ { nid := 0, name := "C", isConstant := true, device := some "a0", value := some (shp [4]) }
      , { nid := 1, name := "k1", isConstant := false, device := some "a0", value := none }
      , { nid := 2, name := "k2", isConstant := false, device := some "b0", value := none }
      , { nid := 3, name := "k3", isConstant := false, device := some "a0", value := none } ]
    edges := [⟨0, 0, 1, 0⟩, ⟨0, 0, 2, 0⟩, ⟨0, 0, 3, 1⟩]
    nextId := 4
    nameCounter := 0 }

/-- Test graph: constant with 17 elements and two cross-host consumers. -/
def g17 : Graph :=
  { nodes :=
      [ { nid := 0, name := "D", isConstant := true, device := some "a0", value := some (shp [17]) }
      , { nid := 1, name := "k1", isConstant := false, device := some "a0", value := none }
      , { nid := 2, name := "k2", isConstant := false, device := some "b0", value := none } ]
    edges := [⟨0, 0, 1, 0⟩, ⟨0, 0, 2, 0⟩]
    nextId := 3
    nameCounter := 0 }

/-- Test graph: constant with 16 elements (shape 4 x 4) and two cross-host
    consumers. -/
def g16 : Graph :=
  { nodes :=
      [ { nid := 0, name := "E", isConstant := true, device := some "a0", value := some (shp [4, 4]) }
      , { nid := 1, name := "k1", isConstant := false, device := some "a0", value := none }
      , { nid := 2, name := "k2", isConstant := false, device := some "b0", value := none } ]
    edges := [⟨0, 0, 1, 0⟩, ⟨0, 0, 2, 0⟩]
    nextId := 3
    nameCounter := 0 }

/-- Test graph: constant "A" replicates (consumers on hosts a and b), then
    constant "B" fails device resolution because its consumer "kx" sits on
    the unparseable device "xx". -/
def gBad : Graph :=
  { nodes :=
      [ { nid := 0, name := "A", isConstant := true, device := some "a0", value := some (shp [2]) }
      , { nid := 1, name := "k1", isConstant := false, device := some "a0", value := none }
      , { nid := 2, name := "k2", isConstant := false, device := some "b0", value := none }
      , { nid := 3, name := "B", isConstant := true, device := some "a0", value := some (shp [3]) }
      , { nid := 4, name := "kx", isConstant := false, device := some "xx", value := none }
      , { nid := 5, name := "ky", isConstant := false, device := some "b0", value := none } ]
    edges := [⟨0, 0, 1, 0⟩, ⟨0, 0, 2, 0⟩, ⟨3, 0, 4, 0⟩, ⟨3, 0, 5, 0⟩]
    nextId := 6
    nameCounter := 0 }

/-- Test graph: constant "M" with two cross-host consumers but no "value"
    attribute, and no assigned device either (a later eligibility test
    would have skipped it). -/
def gMissing : Graph :=
  { nodes :=
      [ { nid := 0, name := "M", isConstant := true, device := none, value := none }
      , { nid := 1, name := "k1", isConstant := false, device := some "a0", value := none }
      , { nid := 2, name := "k2", isConstant := false, device := some "b0", value := none } ]
    edges := [⟨0, 0, 1, 0⟩, ⟨0, 0, 2, 0⟩]
    nextId := 3
    nameCounter := 0 }

/-- Test graph: constant "C" with consumers on hosts a and b, and a single
    predecessor "p" holding two (duplicate) control edges into "C". -/
def gDup : Graph :=
  { nodes :=
      [ { nid := 0, name := "p", isConstant := false, device := some "a0", value := none }
      , { nid := 1, name := "C", isConstant := true, device := some "a0", value := some (shp [2]) }
      , { nid := 2, name := "k1", isConstant := false, device := some "a0", value := none }
      , { nid := 3, name := "k2", isConstant := false, device := some "b0", value := none } ]
    edges := [⟨0, -1, 1, -1⟩, ⟨0, -1, 1, -1⟩, ⟨1, 0, 2, 0⟩, ⟨1, 0, 3, 0⟩]
    nextId := 4
    nameCounter := 0 }

/-- Test graph: constant "S" whose declared element count is exactly the
    int64 maximum (one dimension of size 2^63 - 1), with two consumers, so
    the size test skips it and records min_skipped = int64 max. -/
def gSentinel : Graph :=
  { nodes :=
      [ { nid := 0, name := "S", isConstant := true, device := some "a0",
          value := some (shp [9223372036854775807]) }
      , { nid := 1, name := "k1", isConstant := false, device := some "a0", value := none }
      , { nid := 2, name := "k2", isConstant := false, device := some "b0", value := none } ]
    edges := [⟨0, 0, 1, 0⟩, ⟨0, 0, 2, 0⟩]
    nextId := 3
    nameCounter := 0 }

/-- The graph produced by the pass on gEx: constant "C" replaced by one
    replica per destination host, in ascending device order. -/
def gExAfter : Graph :=
  { nodes :=
      [ { nid := 1, name := "k1", isConstant := false, device := some "a0", value := none }
      , { nid := 2, name := "k2", isConstant := false, device := some "b0", value := none }
      , { nid := 3, name := "k3", isConstant := false, device := some "a0", value := none }
      , { nid := 4, name := "C/replicate/_0", isConstant := true, device := some "a0",
          value := some (shp [4]) }
      , { nid := 5, name := "C/replicate/_1", isConstant := true, device := some "b0",
          value := some (shp [4]) } ]
    edges := [⟨4, 0, 1, 0⟩, ⟨4, 0, 3, 1⟩, ⟨5, 0, 2, 0⟩]
    nextId := 6
    nameCounter := 2 }

/-- The graph produced by the pass on gDup: constant "C" replaced by two
    replicas, each receiving both duplicate control edges from "p". -/
def gDupAfter : Graph :=
  { nodes :=
      [ { nid := 0, name := "p", isConstant := false, device := some "a0", value := none }
      , { nid := 2, name := "k1", isConstant := false, device := some "a0", value := none }
      , { nid := 3, name := "k2", isConstant := false, device := some "b0", value := none }
      , { nid := 4, name := "C/replicate/_0", isConstant := true, device := some "a0",
          value := some (shp [2]) }
      , { nid := 5, name := "C/replicate/_1", isConstant := true, device := some "b0",
          value := some (shp [2]) } ]
    edges := [⟨4, 0, 2, 0⟩, ⟨0, -1, 4, -1⟩, ⟨0, -1, 4, -1⟩,
              ⟨5, 0, 3, 0⟩, ⟨0, -1, 5, -1⟩, ⟨0, -1, 5, -1⟩]
    nextId := 6
    nameCounter := 2 }

/- Theorems.  First the branch lemmas describing each exit of the per-node
   loop body, then the per-claim results. -/

theorem processNode_no_node (R : DeviceNameResolver) (s : PassState) (i : Nat)
    (hget : s.graph.getNode i = none) : processNode R s i = .ok s := by
  simp [processNode, hget]

theorem processNode_nonconst (R : DeviceNameResolver) (s : PassState) (i : Nat) (n : Node)
    (hget : s.graph.getNode i = some n) (hc : n.isConstant = false) :
    processNode R s i = .ok s := by
  simp [processNode, hget, hc]

theorem processNode_low_degree (R : DeviceNameResolver) (s : PassState) (i : Nat) (n : Node)
    (hget : s.graph.getNode i = some n) (hc : n.isConstant = true)
    (hdeg : (s.graph.outEdges n).length ≤ 1) :
    processNode R s i = .ok s := by
  simp [processNode, hget, hc, hdeg]

theorem processNode_ctrl_out (R : DeviceNameResolver) (s : PassState) (i : Nat) (n : Node)
    (hget : s.graph.getNode i = some n) (hc : n.isConstant = true)
    (hdeg : 1 < (s.graph.outEdges n).length) (hctl : hasControlOut s.graph n = true) :
    processNode R s i = .ok s := by
  simp [processNode, hget, hc, hctl, Nat.not_le.mpr hdeg]

theorem processNode_missing_attr (R : DeviceNameResolver) (s : PassState) (i : Nat) (n : Node)
    (hget : s.graph.getNode i = some n) (hc : n.isConstant = true)
    (hdeg : 1 < (s.graph.outEdges n).length) (hctl : hasControlOut s.graph n = false)
    (hval : n.value = none) :
    processNode R s i = .error (.missingValueAttr n.name) := by
  simp [processNode, hget, hc, hctl, hval, Nat.not_le.mpr hdeg]

theorem processNode_bad_shape (R : DeviceNameResolver) (s : PassState) (i : Nat) (n : Node)
    (proto : TensorShapeProto)
    (hget : s.graph.getNode i = some n) (hc : n.isConstant = true)
    (hdeg : 1 < (s.graph.outEdges n).length) (hctl : hasControlOut s.graph n = false)
    (hval : n.value = some proto) (hb : buildShapeNumElements proto = none) :
    processNode R s i = .error (.malformedTensorShape n.name) := by
  simp [processNode, hget, hc, hctl, hval, hb, Nat.not_le.mpr hdeg]

theorem processNode_size_skip (R : DeviceNameResolver) (s : PassState) (i : Nat) (n : Node)
    (proto : TensorShapeProto) (ne : Int)
    (hget : s.graph.getNode i = some n) (hc : n.isConstant = true)
    (hdeg : 1 < (s.graph.outEdges n).length) (hctl : hasControlOut s.graph n = false)
    (hval : n.value = some proto) (hb : buildShapeNumElements proto = some ne)
    (hbig : kMaxSize < ne) :
    processNode R s i =
      .ok { s with minSkipped := min s.minSkipped ne, maxSkipped := max s.maxSkipped ne } := by
  simp [processNode, hget, hc, hctl, hval, hb, Nat.not_le.mpr hdeg, hbig]

theorem processNode_no_device (R : DeviceNameResolver) (s : PassState) (i : Nat) (n : Node)
    (proto : TensorShapeProto) (ne : Int)
    (hget : s.graph.getNode i = some n) (hc : n.isConstant = true)
    (hdeg : 1 < (s.graph.outEdges n).length) (hctl : hasControlOut s.graph n = false)
    (hval : n.value = some proto) (hb : buildShapeNumElements proto = some ne)
    (hsz : ne ≤ kMaxSize) (hdev : n.device = none) :
    processNode R s i = .ok s := by
  simp [processNode, hget, hc, hctl, hval, hb, Nat.not_le.mpr hdeg, Int.not_lt.mpr hsz, hdev]

theorem processNode_not_cpu (R : DeviceNameResolver) (s : PassState) (i : Nat) (n : Node)
    (proto : TensorShapeProto) (ne : Int)
    (hget : s.graph.getNode i = some n) (hc : n.isConstant = true)
    (hdeg : 1 < (s.graph.outEdges n).length) (hctl : hasControlOut s.graph n = false)
    (hval : n.value = some proto) (hb : buildShapeNumElements proto = some ne)
    (hsz : ne ≤ kMaxSize) (hdev : n.device.isNone = false) (hcpu : hasCpuDevice R n = false) :
    processNode R s i = .ok s := by
  simp [processNode, hget, hc, hctl, hval, hb, Nat.not_le.mpr hdeg, Int.not_lt.mpr hsz, hdev, hcpu]

theorem processNode_groups_error (R : DeviceNameResolver) (s : PassState) (i : Nat) (n : Node)
    (proto : TensorShapeProto) (ne : Int) (er : Err)
    (hget : s.graph.getNode i = some n) (hc : n.isConstant = true)
    (hdeg : 1 < (s.graph.outEdges n).length) (hctl : hasControlOut s.graph n = false)
    (hval : n.value = some proto) (hb : buildShapeNumElements proto = some ne)
    (hsz : ne ≤ kMaxSize) (hdev : n.device.isNone = false) (hcpu : hasCpuDevice R n = true)
    (her : getSuccessorEdges R s.graph n = .error er) :
    processNode R s i = .error er := by
  simp [processNode, hget, hc, hctl, hval, hb, Nat.not_le.mpr hdeg, Int.not_lt.mpr hsz, hdev,
    hcpu, her]

theorem processNode_one_group (R : DeviceNameResolver) (s : PassState) (i : Nat) (n : Node)
    (proto : TensorShapeProto) (ne : Int) (groups : List (String × List Edge))
    (hget : s.graph.getNode i = some n) (hc : n.isConstant = true)
    (hdeg : 1 < (s.graph.outEdges n).length) (hctl : hasControlOut s.graph n = false)
    (hval : n.value = some proto) (hb : buildShapeNumElements proto = some ne)
    (hsz : ne ≤ kMaxSize) (hdev : n.device.isNone = false) (hcpu : hasCpuDevice R n = true)
    (hgr : getSuccessorEdges R s.graph n = .ok groups) (hlen : groups.length ≤ 1) :
    processNode R s i = .ok s := by
  simp [processNode, hget, hc, hctl, hval, hb, Nat.not_le.mpr hdeg, Int.not_lt.mpr hsz, hdev,
    hcpu, hgr, hlen]

theorem processNode_replicates (R : DeviceNameResolver) (s : PassState) (i : Nat) (n : Node)
    (proto : TensorShapeProto) (ne : Int) (groups : List (String × List Edge))
    (hget : s.graph.getNode i = some n) (hc : n.isConstant = true)
    (hdeg : 1 < (s.graph.outEdges n).length) (hctl : hasControlOut s.graph n = false)
    (hval : n.value = some proto) (hb : buildShapeNumElements proto = some ne)
    (hsz : ne ≤ kMaxSize) (hdev : n.device.isNone = false) (hcpu : hasCpuDevice R n = true)
    (hgr : getSuccessorEdges R s.graph n = .ok groups) (hlen : 1 < groups.length) :
    processNode R s i = .ok { s with graph := replicateToEachDevice s.graph n groups } := by
  simp [processNode, hget, hc, hctl, hval, hb, Nat.not_le.mpr hdeg, Int.not_lt.mpr hsz, hdev,
    hcpu, hgr, Nat.not_le.mpr hlen]

theorem runNodes_append (R : DeviceNameResolver) (s : PassState) (l₁ l₂ : List Nat) :
    runNodes R s (l₁ ++ l₂) =
      match runNodes R s l₁ with
      | (s₁, none) => runNodes R s₁ l₂
      | (s₁, some e) => (s₁, some e) := by
  induction l₁ generalizing s with
  | nil => simp [runNodes]
  | cons i rest ih =>
    simp only [List.cons_append, runNodes]
    cases processNode R s i with
    | error e => rfl
    | ok s' => exact ih s'

/-- Exhaustive description of the per-node loop body, uniform in the
    diagnostic fields: either the node is skipped (and, when present, is a
    StableSkip node), or it is skipped by the size test with its element
    count recorded, or it is replicated (with all eligibility facts
    exposed), or the body fails — never touching the graph and
    independently of the diagnostics in every case. -/
theorem processNode_full (R : DeviceNameResolver) (g : Graph) (i : Nat) :
    ((∀ a b, processNode R ⟨g, a, b⟩ i = .ok ⟨g, a, b⟩) ∧ sizeSkipOf g i = none
      ∧ (g.getNode i = none ∨ ∃ n, g.getNode i = some n ∧ StableSkip R g n))
    ∨ (∃ n v, g.getNode i = some n ∧ sizeSkipOf g i = some v ∧ kMaxSize < v
        ∧ StableSkip R g n
        ∧ ∀ a b, processNode R ⟨g, a, b⟩ i = .ok ⟨g, min a v, max b v⟩)
    ∨ (∃ n proto ne groups, g.getNode i = some n ∧ sizeSkipOf g i = none
        ∧ n.isConstant = true ∧ 1 < (g.outEdges n).length ∧ hasControlOut g n = false
        ∧ n.value = some proto ∧ buildShapeNumElements proto = some ne ∧ ne ≤ kMaxSize
        ∧ n.device.isNone = false ∧ hasCpuDevice R n = true
        ∧ getSuccessorEdges R g n = .ok groups ∧ 1 < groups.length
        ∧ ∀ a b, processNode R ⟨g, a, b⟩ i = .ok ⟨replicateToEachDevice g n groups, a, b⟩)
    ∨ (∃ e, sizeSkipOf g i = none ∧ (∀ a b, processNode R ⟨g, a, b⟩ i = .error e)
        ∧ ∃ n, g.getNode i = some n ∧ n.isConstant = true ∧ 1 < (g.outEdges n).length
          ∧ hasControlOut g n = false
          ∧ ((n.value = none ∧ e = .missingValueAttr n.name)
            ∨ (∃ proto, n.value = some proto ∧ buildShapeNumElements proto = none
                ∧ e = .malformedTensorShape n.name)
            ∨ (∃ proto ne er, n.value = some proto ∧ buildShapeNumElements proto = some ne
                ∧ ne ≤ kMaxSize ∧ n.device.isNone = false ∧ hasCpuDevice R n = true
                ∧ getSuccessorEdges R g n = .error er ∧ e = er))) := by
  cases hg : g.getNode i with
  | none =>
    refine Or.inl ⟨fun a b => processNode_no_node R ⟨g, a, b⟩ i hg, ?_, Or.inl rfl⟩
    simp [sizeSkipOf, hg]
  | some n =>
    cases hc : n.isConstant with
    | false =>
      refine Or.inl ⟨fun a b => processNode_nonconst R ⟨g, a, b⟩ i n hg hc, ?_,
        Or.inr ⟨n, rfl, Or.inl hc⟩⟩
      simp [sizeSkipOf, hg, hc]
    | true =>
      by_cases hdeg : (g.outEdges n).length ≤ 1
      · refine Or.inl ⟨fun a b => processNode_low_degree R ⟨g, a, b⟩ i n hg hc hdeg, ?_,
          Or.inr ⟨n, rfl, Or.inr (Or.inl hdeg)⟩⟩
        simp [sizeSkipOf, hg, hc, hdeg]
      · have hdeg' := Nat.not_le.mp hdeg
        cases hctl : hasControlOut g n with
        | true =>
          refine Or.inl ⟨fun a b => processNode_ctrl_out R ⟨g, a, b⟩ i n hg hc hdeg' hctl, ?_,
            Or.inr ⟨n, rfl, Or.inr (Or.inr (Or.inl hctl))⟩⟩
          simp [sizeSkipOf, hg, hc, hctl, Nat.not_le.mpr hdeg']
        | false =>
          cases hval : n.value with
          | none =>
            refine Or.inr (Or.inr (Or.inr ⟨.missingValueAttr n.name, ?_,
              fun a b => processNode_missing_attr R ⟨g, a, b⟩ i n hg hc hdeg' hctl hval,
              n, rfl, hc, hdeg', hctl, Or.inl ⟨hval, rfl⟩⟩))
            simp [sizeSkipOf, hg, hc, hctl, hval, Nat.not_le.mpr hdeg']
          | some proto =>
            cases hb : buildShapeNumElements proto with
            | none =>
              refine Or.inr (Or.inr (Or.inr ⟨.malformedTensorShape n.name, ?_,
                fun a b => processNode_bad_shape R ⟨g, a, b⟩ i n proto hg hc hdeg' hctl hval hb,
                n, rfl, hc, hdeg', hctl, Or.inr (Or.inl ⟨proto, hval, hb, rfl⟩)⟩))
              simp [sizeSkipOf, hg, hc, hctl, hval, hb, Nat.not_le.mpr hdeg']
            | some ne =>
              by_cases hbig : kMaxSize < ne
              · refine Or.inr (Or.inl ⟨n, ne, rfl, ?_, hbig,
                  Or.inr (Or.inr (Or.inr ⟨proto, ne, hval, hb, Or.inl hbig⟩)),
                  fun a b => processNode_size_skip R ⟨g, a, b⟩ i n proto ne hg hc hdeg' hctl
                    hval hb hbig⟩)
                simp [sizeSkipOf, hg, hc, hctl, hval, hb, Nat.not_le.mpr hdeg', hbig]
              · have hsz := Int.not_lt.mp hbig
                have hsznone : sizeSkipOf g i = none := by
                  simp [sizeSkipOf, hg, hc, hctl, hval, hb, Nat.not_le.mpr hdeg', hbig]
                cases hdev : n.device with
                | none =>
                  refine Or.inl ⟨fun a b => processNode_no_device R ⟨g, a, b⟩ i n proto ne hg
                    hc hdeg' hctl hval hb hsz hdev, hsznone,
                    Or.inr ⟨n, rfl,
                      Or.inr (Or.inr (Or.inr ⟨proto, ne, hval, hb, Or.inr (Or.inl hdev)⟩))⟩⟩
                | some dv =>
                  have hdev' : n.device.isNone = false := by rw [hdev]; rfl
                  cases hcpu : hasCpuDevice R n with
                  | false =>
                    refine Or.inl ⟨fun a b => processNode_not_cpu R ⟨g, a, b⟩ i n proto ne hg
                      hc hdeg' hctl hval hb hsz hdev' hcpu, hsznone,
                      Or.inr ⟨n, rfl,
                        Or.inr (Or.inr (Or.inr ⟨proto, ne, hval, hb,
                          Or.inr (Or.inr (Or.inl hcpu))⟩))⟩⟩
                  | true =>
                    cases hgr : getSuccessorEdges R g n with
                    | error er =>
                      exact Or.inr (Or.inr (Or.inr ⟨er, hsznone,
                        fun a b => processNode_groups_error R ⟨g, a, b⟩ i n proto ne er hg hc
                          hdeg' hctl hval hb hsz hdev' hcpu hgr,
                        n, rfl, hc, hdeg', hctl,
                        Or.inr (Or.inr ⟨proto, ne, er, hval, hb, hsz, hdev', hcpu, hgr,
                          rfl⟩)⟩))
                    | ok groups =>
                      by_cases hlen : groups.length ≤ 1
                      · refine Or.inl ⟨fun a b => processNode_one_group R ⟨g, a, b⟩ i n proto
                          ne groups hg hc hdeg' hctl hval hb hsz hdev' hcpu hgr hlen, hsznone,
                          Or.inr ⟨n, rfl,
                            Or.inr (Or.inr (Or.inr ⟨proto, ne, hval, hb,
                              Or.inr (Or.inr (Or.inr ⟨groups, hgr, hlen⟩))⟩))⟩⟩
                      · exact Or.inr (Or.inr (Or.inl ⟨n, proto, ne, groups, rfl, hsznone, hc,
                          hdeg', hctl, hval, hb, hsz, hdev', hcpu, hgr, Nat.not_le.mp hlen,
                          fun a b => processNode_replicates R ⟨g, a, b⟩ i n proto ne groups hg
                            hc hdeg' hctl hval hb hsz hdev' hcpu hgr (Nat.not_le.mp hlen)⟩))

theorem runNodes_diag_congr (R : DeviceNameResolver) :
    ∀ (ids : List Nat) (g : Graph) (a b a2 b2 : Int),
      (runNodes R ⟨g, a, b⟩ ids).1.graph = (runNodes R ⟨g, a2, b2⟩ ids).1.graph
      ∧ (runNodes R ⟨g, a, b⟩ ids).2 = (runNodes R ⟨g, a2, b2⟩ ids).2 := by
  intro ids
  induction ids with
  | nil => intro g a b a2 b2; exact ⟨rfl, rfl⟩
  | cons i rest ih =>
    intro g a b a2 b2
    rcases processNode_full R g i with ⟨hok, _, _⟩ | ⟨n, v, _, _, _, _, hok⟩ |
      ⟨n, proto, ne, groups, _, _, _, _, _, _, _, _, _, _, _, _, hok⟩ | ⟨e, _, herr, _⟩
    · simp only [runNodes, hok a b, hok a2 b2]
      exact ih g a b a2 b2
    · simp only [runNodes, hok a b, hok a2 b2]
      exact ih g (min a v) (max b v) (min a2 v) (max b2 v)
    · simp only [runNodes, hok a b, hok a2 b2]
      exact ih (replicateToEachDevice g n groups) a b a2 b2
    · simp [runNodes, herr a b, herr a2 b2]

theorem runNodes_min_max (R : DeviceNameResolver) :
    ∀ (ids : List Nat) (s : PassState) (s' : PassState),
      runNodes R s ids = (s', none) →
      s'.minSkipped = (runNodesLog R s ids).foldl min s.minSkipped
      ∧ s'.maxSkipped = (runNodesLog R s ids).foldl max s.maxSkipped := by
  intro ids
  induction ids with
  | nil =>
    intro s s' h
    simp only [runNodes] at h
    have h1 : s = s' := congrArg Prod.fst h
    subst h1
    exact ⟨rfl, rfl⟩
  | cons i rest ih =>
    intro s s' h
    obtain ⟨g, a, b⟩ := s
    rcases processNode_full R g i with ⟨hok, hsz, _⟩ | ⟨n, v, _, hsz, _, _, hok⟩ |
      ⟨n, proto, ne, groups, _, hsz, _, _, _, _, _, _, _, _, _, _, hok⟩ | ⟨e, hsz, herr, _⟩
    · rw [runNodes] at h
      rw [hok a b] at h
      rw [runNodesLog, hok a b, hsz]
      exact ih _ s' h
    · rw [runNodes] at h
      rw [hok a b] at h
      rw [runNodesLog, hok a b, hsz]
      simpa using ih _ s' h
    · rw [runNodes] at h
      rw [hok a b] at h
      rw [runNodesLog, hok a b, hsz]
      exact ih _ s' h
    · rw [runNodes] at h
      rw [herr a b] at h
      simp at h

theorem runNodesLog_gt (R : DeviceNameResolver) :
    ∀ (ids : List Nat) (s : PassState) (v : Int),
      v ∈ runNodesLog R s ids → kMaxSize < v := by
  intro ids
  induction ids with
  | nil => intro s v hv; simp [runNodesLog] at hv
  | cons i rest ih =>
    intro s v hv
    obtain ⟨g, a, b⟩ := s
    rcases processNode_full R g i with ⟨hok, hsz, _⟩ | ⟨n, w, _, hsz, hw, _, hok⟩ |
      ⟨n, proto, ne, groups, _, hsz, _, _, _, _, _, _, _, _, _, _, hok⟩ | ⟨e, hsz, herr, _⟩
    · rw [runNodesLog, hok a b, hsz] at hv
      exact ih _ v hv
    · rw [runNodesLog, hok a b, hsz] at hv
      simp only [Option.toList_some, List.cons_append, List.nil_append, List.mem_cons] at hv
      rcases hv with rfl | hv
      · exact hw
      · exact ih _ v hv
    · rw [runNodesLog, hok a b, hsz] at hv
      exact ih _ v hv
    · rw [runNodesLog, herr a b] at hv
      simp at hv

theorem foldl_min_facts :
    ∀ (L : List Int) (a : Int),
      (∀ v ∈ L, L.foldl min a ≤ v) ∧ L.foldl min a ≤ a
      ∧ (L.foldl min a = a ∨ L.foldl min a ∈ L) := by
  intro L
  induction L with
  | nil => intro a; exact ⟨by simp, le_refl a, Or.inl rfl⟩
  | cons v rest ih =>
    intro a
    obtain ⟨h1, h2, h3⟩ := ih (min a v)
    simp only [List.foldl_cons]
    refine ⟨?_, ?_, ?_⟩
    · intro w hw
      rcases List.mem_cons.mp hw with rfl | hw
      · exact le_trans h2 (min_le_right a w)
      · exact h1 w hw
    · exact le_trans h2 (min_le_left a v)
    · rcases h3 with h3 | h3
      · rcases min_choice a v with hm | hm
        · exact Or.inl (h3.trans hm)
        · exact Or.inr (by rw [h3.trans hm]; exact List.mem_cons_self v rest)
      · exact Or.inr (List.mem_cons_of_mem v h3)

theorem foldl_max_facts :
    ∀ (L : List Int) (a : Int),
      (∀ v ∈ L, v ≤ L.foldl max a) ∧ a ≤ L.foldl max a
      ∧ (L.foldl max a = a ∨ L.foldl max a ∈ L) := by
  intro L
  induction L with
  | nil => intro a; exact ⟨by simp, le_refl a, Or.inl rfl⟩
  | cons v rest ih =>
    intro a
    obtain ⟨h1, h2, h3⟩ := ih (max a v)
    simp only [List.foldl_cons]
    refine ⟨?_, ?_, ?_⟩
    · intro w hw
      rcases List.mem_cons.mp hw with rfl | hw
      · exact le_trans (le_max_right a w) h2
      · exact h1 w hw
    · exact le_trans (le_max_left a v) h2
    · rcases h3 with h3 | h3
      · rcases max_choice a v with hm | hm
        · exact Or.inl (h3.trans hm)
        · exact Or.inr (by rw [h3.trans hm]; exact List.mem_cons_self v rest)
      · exact Or.inr (List.mem_cons_of_mem v h3)

/-- C8 (counterexample): in gSentinel the constant "S" (element count
    2^63 - 1) is skipped for exceeding the size threshold — the run's
    skipped-size log is [int64Max] — and the pass succeeds, yet no summary
    is produced, because min_skipped's sentinel collides with the recorded
    value. -/
theorem c8_summary_counterexample :
    (runPass toyR gSentinel).err = none
    ∧ runNodesLog toyR (initialState gSentinel) (gSentinel.nodes.map (fun x => x.nid)) =
        [int64Max]
    ∧ (runPass toyR gSentinel).summary = none := by
  exact ⟨by decide, by decide, by decide⟩

/-- C8 (amended): on a successful run the skipped-size summary is produced
    iff some constant was skipped for size with element count strictly
    below 2^63 - 1 (the int64 sentinel); when produced it reports exactly
    the minimum and maximum of all the skipped element counts; and the
    diagnostic accumulators never affect which nodes are rewritten or
    whether the pass fails. -/
theorem c8_skipped_size_summary (R : DeviceNameResolver) (g : Graph) :
    ((runPass R g).err = none →
      ((runPass R g).summary.isSome = true ↔
        ∃ v ∈ runNodesLog R (initialState g) (g.nodes.map (fun x => x.nid)), v < int64Max))
    ∧ (∀ mn mx, (runPass R g).summary = some (mn, mx) →
        mn ∈ runNodesLog R (initialState g) (g.nodes.map (fun x => x.nid))
        ∧ mx ∈ runNodesLog R (initialState g) (g.nodes.map (fun x => x.nid))
        ∧ ∀ v ∈ runNodesLog R (initialState g) (g.nodes.map (fun x => x.nid)),
            mn ≤ v ∧ v ≤ mx)
    ∧ (∀ a b a2 b2,
        (runNodes R ⟨g, a, b⟩ (g.nodes.map (fun x => x.nid))).1.graph =
          (runNodes R ⟨g, a2, b2⟩ (g.nodes.map (fun x => x.nid))).1.graph
        ∧ (runNodes R ⟨g, a, b⟩ (g.nodes.map (fun x => x.nid))).2 =
          (runNodes R ⟨g, a2, b2⟩ (g.nodes.map (fun x => x.nid))).2) := by
  refine ⟨?_, ?_, fun a b a2 b2 => runNodes_diag_congr R _ g a b a2 b2⟩
  · intro herr
    cases hrun : runNodes R (initialState g) (g.nodes.map (fun x => x.nid)) with
    | mk s e =>
      cases e with
      | some er => simp [runPass, hrun] at herr
      | none =>
        obtain ⟨hmin0, _⟩ := runNodes_min_max R _ _ _ hrun
        have hmin : s.minSkipped = List.foldl min int64Max
            (runNodesLog R (initialState g) (g.nodes.map (fun x => x.nid))) := hmin0
        obtain ⟨hbnd, hle, hmem⟩ :=
          foldl_min_facts (runNodesLog R (initialState g) (g.nodes.map (fun x => x.nid)))
            int64Max
        rw [← hmin] at hbnd hle hmem
        simp only [runPass, hrun]
        by_cases hsent : s.minSkipped = int64Max
        · simp only [hsent, bne_self_eq_false, Bool.false_eq_true, if_false,
            Option.isSome_none, false_iff, not_exists]
          intro v hv
          have h1 := hbnd v hv.1
          rw [hsent] at h1
          exact absurd hv.2 (not_lt.mpr h1)
        · have hbne : (s.minSkipped != int64Max) = true := bne_iff_ne.mpr hsent
          simp only [hbne, if_true, Option.isSome_some, true_iff]
          refine ⟨s.minSkipped, ?_, lt_of_le_of_ne hle hsent⟩
          rcases hmem with h | h
          · exact absurd h hsent
          · exact h
  · intro mn mx hs
    cases hrun : runNodes R (initialState g) (g.nodes.map (fun x => x.nid)) with
    | mk s e =>
      cases e with
      | some er => simp [runPass, hrun] at hs
      | none =>
        obtain ⟨hminf0, hmaxf0⟩ := runNodes_min_max R _ _ _ hrun
        have hminf : s.minSkipped = List.foldl min int64Max
            (runNodesLog R (initialState g) (g.nodes.map (fun x => x.nid))) := hminf0
        have hmaxf : s.maxSkipped = List.foldl max int64Min
            (runNodesLog R (initialState g) (g.nodes.map (fun x => x.nid))) := hmaxf0
        obtain ⟨hbnd, hle, hmem⟩ :=
          foldl_min_facts (runNodesLog R (initialState g) (g.nodes.map (fun x => x.nid)))
            int64Max
        obtain ⟨hbnd2, hge2, hmem2⟩ :=
          foldl_max_facts (runNodesLog R (initialState g) (g.nodes.map (fun x => x.nid)))
            int64Min
        rw [← hminf] at hbnd hle hmem
        rw [← hmaxf] at hbnd2 hge2 hmem2
        simp only [runPass, hrun] at hs
        by_cases hsent : s.minSkipped = int64Max
        · simp [hsent] at hs
        · have hbne : (s.minSkipped != int64Max) = true := bne_iff_ne.mpr hsent
          simp only [hbne, if_true, Option.some.injEq, Prod.mk.injEq] at hs
          obtain ⟨hmn, hmx⟩ := hs
          subst hmn
          subst hmx
          have hmnmem : s.minSkipped ∈
              runNodesLog R (initialState g) (g.nodes.map (fun x => x.nid)) := by
            rcases hmem with h | h
            · exact absurd h hsent
            · exact h
          have hmngt : kMaxSize < s.minSkipped := runNodesLog_gt R _ _ _ hmnmem
          have hmxmem : s.maxSkipped ∈
              runNodesLog R (initialState g) (g.nodes.map (fun x => x.nid)) := by
            rcases hmem2 with h | h
            · have h2 := hbnd2 s.minSkipped hmnmem
              rw [h] at h2
              have hk : kMaxSize = (16 : Int) := rfl
              have hm : int64Min = (-9223372036854775808 : Int) := rfl
              rw [hk] at hmngt
              rw [hm] at h2
              omega
            · exact h
          exact ⟨hmnmem, hmxmem, fun v hv => ⟨hbnd v hv, hbnd2 v hv⟩⟩

/-- Witness for C8 (amended) on g17: the 17-element constant is skipped,
    the summary reports exactly (17, 17), and 17 is the min and max of the
    run's skipped-size log. -/
theorem c8_skipped_size_summary_witness :
    (runPass toyR g17).summary = some (17, 17)
    ∧ (17 : Int) ∈ runNodesLog toyR (initialState g17) (g17.nodes.map (fun x => x.nid))
    ∧ ∀ v ∈ runNodesLog toyR (initialState g17) (g17.nodes.map (fun x => x.nid)),
        (17 : Int) ≤ v ∧ v ≤ 17 := by
  have h := (c8_skipped_size_summary toyR g17).2.1 17 17 (by decide)
  exact ⟨by decide, h.1, h.2.2⟩

/-- C9: If the input graph handle is absent (null), the pass performs no
    mutation and returns success. -/
theorem c9_null_graph_noop (R : DeviceNameResolver) :
    runPassOptions R none = (none, none, none) := rfl

/-- C3: For a Constant that passes the earlier eligibility tests (constant,
    more than one outbound edge, no outbound control edge) and whose value
    attribute and shape read successfully with element count ne: the size
    test skips it iff ne exceeds kMaxSize = 16 (so at ne = 16 it remains
    eligible and at ne = 17 it is skipped); when skipped the loop state's
    graph is unchanged and ne is recorded inside the [min, max] diagnostic
    range; when not skipped the diagnostics are untouched. -/
theorem c3_size_threshold (R : DeviceNameResolver) (s : PassState) (n : Node)
    (proto : TensorShapeProto) (ne : Int)
    (hget : s.graph.getNode n.nid = some n) (hc : n.isConstant = true)
    (hdeg : 1 < (s.graph.outEdges n).length) (hctl : hasControlOut s.graph n = false)
    (hval : n.value = some proto) (hb : buildShapeNumElements proto = some ne) :
    (sizeSkipOf s.graph n.nid = none ↔ ne ≤ kMaxSize)
    ∧ (kMaxSize < ne →
        processNode R s n.nid =
          .ok { s with minSkipped := min s.minSkipped ne, maxSkipped := max s.maxSkipped ne }
        ∧ min s.minSkipped ne ≤ ne ∧ ne ≤ max s.maxSkipped ne)
    ∧ (ne ≤ kMaxSize → ∀ s', processNode R s n.nid = .ok s' →
        s'.minSkipped = s.minSkipped ∧ s'.maxSkipped = s.maxSkipped) := by
  refine ⟨?_, ?_, ?_⟩
  · by_cases hbig : kMaxSize < ne <;>
      simp [sizeSkipOf, hget, hc, hctl, hval, hb, Nat.not_le.mpr hdeg, hbig] <;>
      omega
  · intro hbig
    exact ⟨processNode_size_skip R s n.nid n proto ne hget hc hdeg hctl hval hb hbig,
      min_le_right _ _, le_max_right _ _⟩
  · intro hle s' hok
    by_cases hdev : n.device.isNone
    · rw [processNode_no_device R s n.nid n proto ne hget hc hdeg hctl hval hb hle
        (Option.isNone_iff_eq_none.mp hdev)] at hok
      cases hok
      exact ⟨rfl, rfl⟩
    · have hdev' : n.device.isNone = false := by
        cases h : n.device.isNone
        · rfl
        · exact absurd h hdev
      by_cases hcpu : hasCpuDevice R n = true
      · cases hgr : getSuccessorEdges R s.graph n with
        | error er =>
          rw [processNode_groups_error R s n.nid n proto ne er hget hc hdeg hctl hval hb hle
            hdev' hcpu hgr] at hok
          cases hok
        | ok groups =>
          by_cases hlen : groups.length ≤ 1
          · rw [processNode_one_group R s n.nid n proto ne groups hget hc hdeg hctl hval hb hle
              hdev' hcpu hgr hlen] at hok
            cases hok
            exact ⟨rfl, rfl⟩
          · rw [processNode_replicates R s n.nid n proto ne groups hget hc hdeg hctl hval hb hle
              hdev' hcpu hgr (Nat.not_le.mp hlen)] at hok
            cases hok
            exact ⟨rfl, rfl⟩
      · have hcpu' : hasCpuDevice R n = false := by
          cases h : hasCpuDevice R n
          · rfl
          · exact absurd h hcpu
        rw [processNode_not_cpu R s n.nid n proto ne hget hc hdeg hctl hval hb hle
          hdev' hcpu'] at hok
        cases hok
        exact ⟨rfl, rfl⟩

/-- Witness for C3 at the boundary: in g17 the 17-element constant (node 0)
    is size-skipped with 17 recorded in the diagnostic range, and in g16
    the 16-element constant is not size-skipped and leaves the diagnostics
    untouched. -/
theorem c3_size_threshold_witness :
    processNode toyR (initialState g17) 0 =
      .ok { graph := g17, minSkipped := 17, maxSkipped := 17 }
    ∧ sizeSkipOf g17 0 = some 17
    ∧ sizeSkipOf g16 0 = none
    ∧ ∀ s', processNode toyR (initialState g16) 0 = .ok s' →
        s'.minSkipped = int64Max ∧ s'.maxSkipped = int64Min := by
  have h17 := c3_size_threshold toyR (initialState g17)
    { nid := 0, name := "D", isConstant := true, device := some "a0", value := some (shp [17]) }
    (shp [17]) 17 (by decide) (by decide) (by decide) (by decide) (by decide) (by decide)
  have h16 := c3_size_threshold toyR (initialState g16)
    { nid := 0, name := "E", isConstant := true, device := some "a0", value := some (shp [4, 4]) }
    (shp [4, 4]) 16 (by decide) (by decide) (by decide) (by decide) (by decide) (by decide)
  refine ⟨Eq.trans (h17.2.1 (by decide)).1 (by decide), by decide, by decide, ?_⟩
  intro s' hok
  exact h16.2.2 (by decide) s' hok

theorem groupEdges_error_iff (R : DeviceNameResolver) (g : Graph) (es : List Edge) :
    ∀ acc, (∃ er, groupEdges R g es acc = .error er) ↔
      ∃ e ∈ es, ∃ er, getDestinationCpuDevice R (g.destNode e) = .error er := by
  induction es with
  | nil => intro acc; simp [groupEdges]
  | cons e rest ih =>
    intro acc
    cases hd : getDestinationCpuDevice R (g.destNode e) with
    | error er => simp [groupEdges, hd]
    | ok dev =>
      simp only [groupEdges, hd]
      rw [ih]
      constructor
      · intro ⟨f, hf, h⟩
        exact ⟨f, List.mem_cons_of_mem _ hf, h⟩
      · intro ⟨f, hf, er, h⟩
        rcases List.mem_cons.mp hf with rfl | hf'
        · rw [hd] at h; cases h
        · exact ⟨f, hf', er, h⟩

theorem groupEdges_error_kinds (R : DeviceNameResolver) (g : Graph) (es : List Edge) :
    ∀ acc er, groupEdges R g es acc = .error er →
      (∃ nm, er = .noAssignedDevice nm) ∨ ∃ dv, er = .malformedDeviceName dv := by
  induction es with
  | nil => intro acc er h; simp [groupEdges] at h
  | cons e rest ih =>
    intro acc er h
    cases hdev : (g.destNode e).device with
    | none =>
      simp only [groupEdges, getDestinationCpuDevice, hdev] at h
      cases h
      exact Or.inl ⟨_, rfl⟩
    | some d =>
      cases hc : R.toCpu d with
      | none =>
        simp only [groupEdges, getDestinationCpuDevice, hdev, hc] at h
        cases h
        exact Or.inr ⟨_, rfl⟩
      | some c =>
        simp only [groupEdges, getDestinationCpuDevice, hdev, hc] at h
        exact ih _ er h

/-- C5: resolving a consumer while grouping fails with NoAssignedDevice
    exactly when that consumer has no assigned device, and with
    MalformedDeviceName exactly when its assigned device string cannot be
    transformed into a co-located CPU device name; grouping a constant's
    consumers fails exactly when some consumer's resolution fails, every
    grouping failure is of one of those two kinds, and such a failure is
    fatal: the loop body returns the error and the node loop stops with it
    immediately. -/
theorem c5_resolution_errors (R : DeviceNameResolver) :
    (∀ dst : Node,
      ((∃ nm, getDestinationCpuDevice R dst = .error (.noAssignedDevice nm)) ↔ dst.device = none)
      ∧ ∀ d, dst.device = some d →
          ((∃ dv, getDestinationCpuDevice R dst = .error (.malformedDeviceName dv)) ↔
            R.toCpu d = none))
    ∧ (∀ g n, (∃ er, getSuccessorEdges R g n = .error er) ↔
        ∃ e ∈ g.outEdges n, ∃ er, getDestinationCpuDevice R (g.destNode e) = .error er)
    ∧ (∀ g n er, getSuccessorEdges R g n = .error er →
        (∃ nm, er = .noAssignedDevice nm) ∨ ∃ dv, er = .malformedDeviceName dv)
    ∧ (∀ s (n : Node) proto (ne : Int) er, s.graph.getNode n.nid = some n →
        n.isConstant = true → 1 < (s.graph.outEdges n).length →
        hasControlOut s.graph n = false → n.value = some proto →
        buildShapeNumElements proto = some ne → ne ≤ kMaxSize →
        n.device.isNone = false → hasCpuDevice R n = true →
        getSuccessorEdges R s.graph n = .error er →
        processNode R s n.nid = .error er)
    ∧ (∀ s i rest er, processNode R s i = .error er →
        runNodes R s (i :: rest) = (s, some er)) := by
  refine ⟨?_, ?_, ?_, ?_, ?_⟩
  · intro dst
    constructor
    · cases hdev : dst.device with
      | none => simp [getDestinationCpuDevice, hdev]
      | some d =>
        simp only [getDestinationCpuDevice, hdev]
        cases hc : R.toCpu d with
        | none => simp
        | some c => simp
    · intro d hdev
      simp only [getDestinationCpuDevice, hdev]
      cases hc : R.toCpu d with
      | none => simp
      | some c => simp
  · intro g n
    exact groupEdges_error_iff R g (g.outEdges n) []
  · intro g n er h
    exact groupEdges_error_kinds R g (g.outEdges n) [] er h
  · intro s n proto ne er hget hc hdeg hctl hval hb hsz hdev hcpu her
    exact processNode_groups_error R s n.nid n proto ne er hget hc hdeg hctl hval hb hsz hdev
      hcpu her
  · intro s i rest er h
    simp [runNodes, h]

/-- Witness for C5 in gBad: consumer "kx" (device "xx") fails resolution
    with MalformedDeviceName while a deviceless node fails with
    NoAssignedDevice; grouping constant "B"'s consumers fails, and the
    loop body on "B" returns that error. -/
theorem c5_resolution_errors_witness :
    getDestinationCpuDevice toyR (defaultNode 9) = .error (.noAssignedDevice "")
    ∧ (∃ dv, getDestinationCpuDevice toyR
        { nid := 4, name := "kx", isConstant := false, device := some "xx", value := none } =
          .error (.malformedDeviceName dv))
    ∧ (∃ er, getSuccessorEdges toyR gBad
        { nid := 3, name := "B", isConstant := true, device := some "a0", value := some (shp [3]) } =
          .error er)
    ∧ processNode toyR
        { graph := gBad, minSkipped := int64Max, maxSkipped := int64Min } 3 =
          .error (.malformedDeviceName "xx") := by
  have h := c5_resolution_errors toyR
  refine ⟨by decide, ?_, ?_, ?_⟩
  · exact ((h.1
      { nid := 4, name := "kx", isConstant := false, device := some "xx", value := none }).2
        "xx" rfl).mpr (by decide)
  · refine (h.2.1 gBad
      { nid := 3, name := "B", isConstant := true, device := some "a0",
        value := some (shp [3]) }).mpr ?_
    exact ⟨⟨3, 0, 4, 0⟩, by decide, .malformedDeviceName "xx", by decide⟩
  · exact h.2.2.2.1 { graph := gBad, minSkipped := int64Max, maxSkipped := int64Min }
      { nid := 3, name := "B", isConstant := true, device := some "a0", value := some (shp [3]) }
      (shp [3]) 3 (.malformedDeviceName "xx") (by decide) (by decide) (by decide) (by decide)
      (by decide) (by decide) (by decide) (by decide) (by decide) (by decide)

/-- C4: When the loop, having processed the ids in pre without error
    (leaving state s₁, which contains every rewrite completed so far),
    reaches a constant that passes eligibility tests 1-6 and whose
    consumer grouping fails, the whole pass aborts: the resolver's error is
    propagated as the pass's status, and the resulting graph is exactly
    s₁'s graph — earlier completed rewrites remain (no rollback), and
    nothing reachable from the failing constant or any later node is
    touched. -/
theorem c4_grouping_failure_aborts (R : DeviceNameResolver) (g : Graph) (n : Node)
    (pre post : List Nat) (s₁ : PassState) (proto : TensorShapeProto) (ne : Int) (er : Err)
    (hsplit : g.nodes.map Node.nid = pre ++ n.nid :: post)
    (hpre : runNodes R (initialState g) pre = (s₁, none))
    (hget : s₁.graph.getNode n.nid = some n) (hc : n.isConstant = true)
    (hdeg : 1 < (s₁.graph.outEdges n).length) (hctl : hasControlOut s₁.graph n = false)
    (hval : n.value = some proto) (hb : buildShapeNumElements proto = some ne)
    (hsz : ne ≤ kMaxSize) (hdev : n.device.isNone = false) (hcpu : hasCpuDevice R n = true)
    (her : getSuccessorEdges R s₁.graph n = .error er) :
    runPass R g = { graph := s₁.graph, summary := none, err := some er } := by
  have hp : processNode R s₁ n.nid = .error er :=
    processNode_groups_error R s₁ n.nid n proto ne er hget hc hdeg hctl hval hb hsz hdev hcpu her
  have : runNodes R (initialState g) (g.nodes.map Node.nid) = (s₁, some er) := by
    rw [hsplit, runNodes_append, hpre]
    simp [runNodes, hp]
  simp [runPass, this]

/-- Witness for C4 on gBad: constant "A" (id 0) replicates onto hosts a and
    b, then constant "B" (id 3) fails grouping on consumer "kx"'s
    unparseable device "xx"; the pass aborts with that error, keeps "A"'s
    completed rewrite, and leaves everything else exactly as in the
    pre-"B" state gBad1. -/
theorem c4_grouping_failure_aborts_witness :
    runPass toyR gBad =
      { graph := gBad1, summary := none, err := some (.malformedDeviceName "xx") } :=
  c4_grouping_failure_aborts toyR gBad
    { nid := 3, name := "B", isConstant := true, device := some "a0", value := some (shp [3]) }
    [0, 1, 2] [4, 5] { graph := gBad1, minSkipped := int64Max, maxSkipped := int64Min }
    (shp [3]) 3 (.malformedDeviceName "xx") (by decide) (by decide) (by decide) (by decide)
    (by decide) (by decide) (by decide) (by decide) (by decide) (by decide) (by decide)
    (by decide)

theorem charToNat_inj {a b : Char} (h : a.toNat = b.toNat) : a = b :=
  Char.eq_of_val_eq (UInt32.ext h)

theorem strLtAux_trichotomy (a b : List Char) :
    strLtAux a b = true ∨ a = b ∨ strLtAux b a = true := by
  induction a generalizing b with
  | nil => cases b <;> simp [strLtAux]
  | cons x xs ih =>
    cases b with
    | nil => simp [strLtAux]
    | cons y ys =>
      rcases Nat.lt_trichotomy x.toNat y.toNat with h | h | h
      · left; simp [strLtAux, h]
      · rcases ih ys with h2 | h2 | h2
        · left; simp [strLtAux, h, h2]
        · right; left; rw [charToNat_inj h, h2]
        · right; right; simp [strLtAux, h.symm, h2]
      · right; right; simp [strLtAux, h]

theorem strLt_trichotomy (a b : String) : strLt a b = true ∨ a = b ∨ strLt b a = true := by
  rcases strLtAux_trichotomy a.data b.data with h | h | h
  · exact Or.inl h
  · exact Or.inr (Or.inl (by cases a; cases b; exact congrArg String.mk h))
  · exact Or.inr (Or.inr h)

theorem getNode_mem {g : Graph} {i : Nat} {n : Node} (h : g.getNode i = some n) :
    n ∈ g.nodes ∧ n.nid = i := by
  refine ⟨List.mem_of_find?_eq_some h, ?_⟩
  have := List.find?_some h
  simpa using this

theorem mem_outEdges {g : Graph} {n : Node} {e : Edge} :
    e ∈ g.outEdges n ↔ e ∈ g.edges ∧ e.src = n.nid := by
  simp [Graph.outEdges, List.mem_filter]

theorem btreeInsert_cons_lt {k : String} {es : List Edge} {rest : List (String × List Edge)}
    {d : String} {e : Edge} (h1 : strLt d k = true) :
    btreeInsert ((k, es) :: rest) d e = (d, [e]) :: (k, es) :: rest := by
  simp [btreeInsert, h1]

theorem btreeInsert_cons_eq {k : String} {es : List Edge} {rest : List (String × List Edge)}
    {e : Edge} (h1 : strLt k k = false) :
    btreeInsert ((k, es) :: rest) k e = (k, es ++ [e]) :: rest := by
  simp [btreeInsert, h1]

theorem btreeInsert_cons_gt {k : String} {es : List Edge} {rest : List (String × List Edge)}
    {d : String} {e : Edge} (h1 : strLt d k = false) (h2 : d ≠ k) :
    btreeInsert ((k, es) :: rest) d e = (k, es) :: btreeInsert rest d e := by
  simp [btreeInsert, h1, h2]

theorem btreeInsert_flatten_perm (acc : List (String × List Edge)) (d : String) (e : Edge) :
    ((btreeInsert acc d e).map Prod.snd).flatten.Perm (e :: (acc.map Prod.snd).flatten) := by
  induction acc with
  | nil => simp [btreeInsert]
  | cons p rest ih =>
    obtain ⟨k, es⟩ := p
    cases h1 : strLt d k with
    | true => rw [btreeInsert_cons_lt h1]; simp
    | false =>
      by_cases h2 : d = k
      · subst h2
        rw [btreeInsert_cons_eq h1]
        simp only [List.map_cons, List.flatten_cons, List.append_assoc]
        exact List.perm_middle
      · rw [btreeInsert_cons_gt h1 h2]
        simp only [List.map_cons, List.flatten_cons]
        exact (ih.append_left es).trans List.perm_middle

theorem btreeInsert_mem {acc : List (String × List Edge)} {d : String} {e : Edge}
    {p : String × List Edge} {f : Edge}
    (hp : p ∈ btreeInsert acc d e) (hf : f ∈ p.2) :
    (f = e ∧ p.1 = d) ∨ ∃ q ∈ acc, q.1 = p.1 ∧ f ∈ q.2 := by
  induction acc with
  | nil =>
    simp only [btreeInsert, List.mem_singleton] at hp
    subst hp
    simp only [List.mem_singleton] at hf
    exact Or.inl ⟨hf, rfl⟩
  | cons q rest ih =>
    obtain ⟨k, es⟩ := q
    cases h1 : strLt d k with
    | true =>
      rw [btreeInsert_cons_lt h1] at hp
      rcases List.mem_cons.mp hp with rfl | hp
      · simp only [List.mem_singleton] at hf
        exact Or.inl ⟨hf, rfl⟩
      · exact Or.inr ⟨p, hp, rfl, hf⟩
    | false =>
      by_cases h2 : d = k
      · subst h2
        rw [btreeInsert_cons_eq h1] at hp
        rcases List.mem_cons.mp hp with rfl | hp
        · simp only [List.mem_append, List.mem_singleton] at hf
          rcases hf with hf | rfl
          · exact Or.inr ⟨(d, es), List.mem_cons_self _ _, rfl, hf⟩
          · exact Or.inl ⟨rfl, rfl⟩
        · exact Or.inr ⟨p, List.mem_cons_of_mem _ hp, rfl, hf⟩
      · rw [btreeInsert_cons_gt h1 h2] at hp
        rcases List.mem_cons.mp hp with rfl | hp
        · exact Or.inr ⟨(k, es), List.mem_cons_self _ _, rfl, hf⟩
        · rcases ih hp with h | ⟨q, hq, hkeys, hfq⟩
          · exact Or.inl h
          · exact Or.inr ⟨q, List.mem_cons_of_mem _ hq, hkeys, hfq⟩

theorem btreeInsert_keys_head (acc : List (String × List Edge)) (d : String) (e : Edge) :
    ((btreeInsert acc d e).map Prod.fst).head? = some d
    ∨ ((btreeInsert acc d e).map Prod.fst).head? = (acc.map Prod.fst).head? := by
  cases acc with
  | nil => simp [btreeInsert]
  | cons q rest =>
    obtain ⟨k, es⟩ := q
    cases h1 : strLt d k with
    | true => rw [btreeInsert_cons_lt h1]; simp
    | false =>
      by_cases h2 : d = k
      · subst h2
        rw [btreeInsert_cons_eq h1]
        simp
      · rw [btreeInsert_cons_gt h1 h2]
        simp

theorem btreeInsert_keys_sorted (acc : List (String × List Edge)) (d : String) (e : Edge)
    (h : List.Chain' (fun a b => strLt a b = true) (acc.map Prod.fst)) :
    List.Chain' (fun a b => strLt a b = true) ((btreeInsert acc d e).map Prod.fst) := by
  induction acc with
  | nil => simp [btreeInsert]
  | cons q rest ih =>
    obtain ⟨k, es⟩ := q
    simp only [List.map_cons, List.chain'_cons'] at h
    obtain ⟨hhead, htail⟩ := h
    cases h1 : strLt d k with
    | true =>
      rw [btreeInsert_cons_lt h1]
      simp only [List.map_cons]
      refine List.chain'_cons'.mpr ⟨?_, List.chain'_cons'.mpr ⟨hhead, htail⟩⟩
      intro y hy
      simp only [List.head?_cons, Option.mem_def, Option.some.injEq] at hy
      subst hy
      exact h1
    | false =>
      by_cases h2 : d = k
      · subst h2
        rw [btreeInsert_cons_eq h1]
        simp only [List.map_cons]
        exact List.chain'_cons'.mpr ⟨hhead, htail⟩
      · have hkd : strLt k d = true := by
          rcases strLt_trichotomy d k with h | h | h
          · rw [h1] at h; cases h
          · exact absurd h h2
          · exact h
        rw [btreeInsert_cons_gt h1 h2]
        simp only [List.map_cons]
        refine List.chain'_cons'.mpr ⟨?_, ih htail⟩
        intro y hy
        rcases btreeInsert_keys_head rest d e with hh | hh
        · rw [hh] at hy
          simp only [Option.mem_def, Option.some.injEq] at hy
          subst hy
          exact hkd
        · rw [hh] at hy
          exact hhead y hy

theorem groupEdges_ok_flatten_perm (R : DeviceNameResolver) (g : Graph) (es : List Edge) :
    ∀ acc gr, groupEdges R g es acc = .ok gr →
      (gr.map Prod.snd).flatten.Perm ((acc.map Prod.snd).flatten ++ es) := by
  induction es with
  | nil =>
    intro acc gr h
    simp only [groupEdges] at h
    cases h
    simp
  | cons e rest ih =>
    intro acc gr h
    cases hd : getDestinationCpuDevice R (g.destNode e) with
    | error er => simp [groupEdges, hd] at h
    | ok dev =>
      simp only [groupEdges, hd] at h
      have h1 := ih (btreeInsert acc dev e) gr h
      have h2 := (btreeInsert_flatten_perm acc dev e).append_right rest
      exact (h1.trans h2).trans List.perm_middle.symm

theorem groupEdges_ok_keys (R : DeviceNameResolver) (g : Graph) (es : List Edge) :
    ∀ acc gr, groupEdges R g es acc = .ok gr →
      (∀ p ∈ acc, ∀ f ∈ p.2, getDestinationCpuDevice R (g.destNode f) = .ok p.1) →
      ∀ p ∈ gr, ∀ f ∈ p.2, getDestinationCpuDevice R (g.destNode f) = .ok p.1 := by
  induction es with
  | nil =>
    intro acc gr h hacc
    simp only [groupEdges] at h
    cases h
    exact hacc
  | cons e rest ih =>
    intro acc gr h hacc
    cases hd : getDestinationCpuDevice R (g.destNode e) with
    | error er => simp [groupEdges, hd] at h
    | ok dev =>
      simp only [groupEdges, hd] at h
      refine ih (btreeInsert acc dev e) gr h ?_
      intro p hp f hf
      rcases btreeInsert_mem hp hf with ⟨rfl, hkey⟩ | ⟨q, hq, hkeys, hfq⟩
      · rw [hkey, hd]
      · rw [← hkeys]
        exact hacc q hq f hfq

theorem groupEdges_ok_sorted (R : DeviceNameResolver) (g : Graph) (es : List Edge) :
    ∀ acc gr, groupEdges R g es acc = .ok gr →
      List.Chain' (fun a b => strLt a b = true) (acc.map Prod.fst) →
      List.Chain' (fun a b => strLt a b = true) (gr.map Prod.fst) := by
  induction es with
  | nil =>
    intro acc gr h hacc
    simp only [groupEdges] at h
    cases h
    exact hacc
  | cons e rest ih =>
    intro acc gr h hacc
    cases hd : getDestinationCpuDevice R (g.destNode e) with
    | error er => simp [groupEdges, hd] at h
    | ok dev =>
      simp only [groupEdges, hd] at h
      exact ih (btreeInsert acc dev e) gr h (btreeInsert_keys_sorted acc dev e hacc)

theorem getSuccessorEdges_flatten_perm {R : DeviceNameResolver} {g : Graph} {n : Node}
    {gr : List (String × List Edge)} (h : getSuccessorEdges R g n = .ok gr) :
    (gr.map Prod.snd).flatten.Perm (g.outEdges n) := by
  have := groupEdges_ok_flatten_perm R g (g.outEdges n) [] gr h
  simpa using this

theorem getSuccessorEdges_keys {R : DeviceNameResolver} {g : Graph} {n : Node}
    {gr : List (String × List Edge)} (h : getSuccessorEdges R g n = .ok gr) :
    ∀ p ∈ gr, ∀ f ∈ p.2, getDestinationCpuDevice R (g.destNode f) = .ok p.1 := by
  refine groupEdges_ok_keys R g (g.outEdges n) [] gr h ?_
  intro p hp
  cases hp

theorem getSuccessorEdges_sorted {R : DeviceNameResolver} {g : Graph} {n : Node}
    {gr : List (String × List Edge)} (h : getSuccessorEdges R g n = .ok gr) :
    List.Chain' (fun a b => strLt a b = true) (gr.map Prod.fst) := by
  refine groupEdges_ok_sorted R g (g.outEdges n) [] gr h ?_
  simp

theorem getSuccessorEdges_bucket_sub {R : DeviceNameResolver} {g : Graph} {n : Node}
    {gr : List (String × List Edge)} (h : getSuccessorEdges R g n = .ok gr)
    {p : String × List Edge} {f : Edge} (hp : p ∈ gr) (hf : f ∈ p.2) :
    f ∈ g.outEdges n := by
  have hperm := getSuccessorEdges_flatten_perm h
  exact hperm.mem_iff.mp (List.mem_flatten.mpr ⟨p.2, List.mem_map_of_mem Prod.snd hp, hf⟩)

theorem replicateGroup_eq (n : Node) (g : Graph) (k : String) (es : List Edge)
    (hdst : ∀ e ∈ es, e.dst ≠ n.nid) (hn : n.nid < g.nextId) :
    replicateGroup n g (k, es) =
      { nodes := g.nodes ++ [mkCopy n g.nextId g.nameCounter k]
        edges := g.edges ++ (dataEdgesTo g.nextId es ++ ctrlEdgesTo (g.inNodeIds n.nid) g.nextId)
        nextId := g.nextId + 1
        nameCounter := g.nameCounter + 1 } := by
  simp only [replicateGroup, mkCopy, dataEdgesTo, ctrlEdgesTo]
  have hfil : (List.filter (fun e => e.dst == n.nid)
      (g.edges ++ es.map (fun e =>
        { src := g.nextId, srcOut := e.srcOut, dst := e.dst, dstIn := e.dstIn }))) =
      List.filter (fun e => e.dst == n.nid) g.edges := by
    rw [List.filter_append]
    have : (List.filter (fun e => e.dst == n.nid)
        (es.map (fun e =>
          { src := g.nextId, srcOut := e.srcOut, dst := e.dst, dstIn := e.dstIn : Edge }))) = [] := by
      rw [List.filter_eq_nil_iff]
      intro f hf
      obtain ⟨e, he, rfl⟩ := List.mem_map.mp hf
      simpa using hdst e he
    rw [this, List.append_nil]
  simp only [Graph.inNodeIds, hfil]
  refine congrArg (fun z => { nodes := _, edges := z, nextId := _, nameCounter := _ : Graph }) ?_
  rw [List.append_assoc]

theorem inNodeIds_append_nil {g : Graph} {E : List Edge} {N : List Node} {a b i : Nat}
    (h : List.filter (fun e => e.dst == i) E = []) :
    Graph.inNodeIds { nodes := N, edges := g.edges ++ E, nextId := a, nameCounter := b } i =
      g.inNodeIds i := by
  simp only [Graph.inNodeIds, List.filter_append, h, List.append_nil]

theorem foldl_replicateGroup_eq (n : Node) :
    ∀ (groups : List (String × List Edge)) (g : Graph),
      (∀ p ∈ groups, ∀ e ∈ p.2, e.dst ≠ n.nid) →
      n.nid < g.nextId →
      groups.foldl (replicateGroup n) g =
        { nodes := g.nodes ++ (copiesFrom n (g.inNodeIds n.nid) g.nextId g.nameCounter groups).1
          edges := g.edges ++ (copiesFrom n (g.inNodeIds n.nid) g.nextId g.nameCounter groups).2
          nextId := g.nextId + groups.length
          nameCounter := g.nameCounter + groups.length } := by
  intro groups
  induction groups with
  | nil =>
    intro g _ _
    simp [copiesFrom]
  | cons p rest ih =>
    intro g hdst hn
    obtain ⟨k, es⟩ := p
    have h1 : replicateGroup n g (k, es) =
        { nodes := g.nodes ++ [mkCopy n g.nextId g.nameCounter k]
          edges := g.edges ++ (dataEdgesTo g.nextId es ++ ctrlEdgesTo (g.inNodeIds n.nid) g.nextId)
          nextId := g.nextId + 1
          nameCounter := g.nameCounter + 1 } :=
      replicateGroup_eq n g k es (fun e he => hdst (k, es) (List.mem_cons_self _ _) e he) hn
    have hd : List.filter (fun e => e.dst == n.nid) (dataEdgesTo g.nextId es) = [] := by
      rw [List.filter_eq_nil_iff]
      intro f hf
      obtain ⟨e, he, rfl⟩ := List.mem_map.mp hf
      simpa using hdst (k, es) (List.mem_cons_self _ _) e he
    have hc : List.filter (fun e => e.dst == n.nid)
        (ctrlEdgesTo (g.inNodeIds n.nid) g.nextId) = [] := by
      rw [List.filter_eq_nil_iff]
      intro f hf
      obtain ⟨q, _, rfl⟩ := List.mem_map.mp hf
      simp only [beq_iff_eq]
      omega
    have hinn := inNodeIds_append_nil (g := g)
      (E := dataEdgesTo g.nextId es ++ ctrlEdgesTo (g.inNodeIds n.nid) g.nextId)
      (N := g.nodes ++ [mkCopy n g.nextId g.nameCounter k])
      (a := g.nextId + 1) (b := g.nameCounter + 1) (i := n.nid)
      (by rw [List.filter_append, hd, hc]; rfl)
    simp only [List.foldl_cons, h1]
    rw [ih _ (fun q hq e he => hdst q (List.mem_cons_of_mem _ hq) e he) (by simp; omega)]
    simp only [hinn, copiesFrom, List.length_cons]
    simp only [Graph.mk.injEq]
    refine ⟨?_, ?_, by omega, by omega⟩
    · rw [List.append_assoc]
      rfl
    · rw [List.append_assoc]

theorem copiesFrom_fst_length (orig : Node) (inN : List Nat) :
    ∀ (gs : List (String × List Edge)) (b c : Nat),
      ((copiesFrom orig inN b c gs).1).length = gs.length := by
  intro gs
  induction gs with
  | nil => intro b c; simp [copiesFrom]
  | cons p rest ih =>
    intro b c
    obtain ⟨k, es⟩ := p
    simp [copiesFrom, ih]

theorem copiesFrom_nid_ge (orig : Node) (inN : List Nat) :
    ∀ (gs : List (String × List Edge)) (b c : Nat) (x : Node),
      x ∈ (copiesFrom orig inN b c gs).1 → b ≤ x.nid := by
  intro gs
  induction gs with
  | nil => intro b c x hx; simp [copiesFrom] at hx
  | cons p rest ih =>
    intro b c x hx
    obtain ⟨k, es⟩ := p
    simp only [copiesFrom, List.mem_cons] at hx
    rcases hx with rfl | hx
    · simp [mkCopy]
    · exact Nat.le_of_succ_le (ih (b + 1) (c + 1) x hx)

theorem copiesFrom_device_map (orig : Node) (inN : List Nat) :
    ∀ (gs : List (String × List Edge)) (b c : Nat),
      ((copiesFrom orig inN b c gs).1).map (fun x => x.device) =
        gs.map (fun p => some p.1) := by
  intro gs
  induction gs with
  | nil => intro b c; simp [copiesFrom]
  | cons p rest ih =>
    intro b c
    obtain ⟨k, es⟩ := p
    simp [copiesFrom, mkCopy, ih]

theorem copiesFrom_name_map (orig : Node) (inN : List Nat) :
    ∀ (gs : List (String × List Edge)) (b c : Nat),
      ((copiesFrom orig inN b c gs).1).map (fun x => x.name) =
        (List.range gs.length).map
          (fun j => orig.name ++ "/replicate/_" ++ toString (c + j)) := by
  intro gs
  induction gs with
  | nil => intro b c; simp [copiesFrom]
  | cons p rest ih =>
    intro b c
    obtain ⟨k, es⟩ := p
    simp only [copiesFrom, List.map_cons, mkCopy, List.length_cons, List.range_succ_eq_map,
      List.map_map, ih]
    refine congrArg₂ _ (by simp) ?_
    refine List.map_congr_left ?_
    intro j _
    simp only [Function.comp]
    have : c + 1 + j = c + (j + 1) := by omega
    rw [this]

theorem copiesFrom_edges_mem (orig : Node) (inN : List Nat) :
    ∀ (gs : List (String × List Edge)) (b c : Nat) (f : Edge),
      f ∈ (copiesFrom orig inN b c gs).2 →
      (∃ p ∈ gs, ∃ e ∈ p.2, b ≤ f.src ∧ f.srcOut = e.srcOut ∧ f.dst = e.dst ∧ f.dstIn = e.dstIn)
      ∨ (f.src ∈ inN ∧ f.srcOut = -1 ∧ b ≤ f.dst ∧ f.dstIn = -1) := by
  intro gs
  induction gs with
  | nil => intro b c f hf; simp [copiesFrom] at hf
  | cons p rest ih =>
    intro b c f hf
    obtain ⟨k, es⟩ := p
    simp only [copiesFrom, List.append_assoc, List.mem_append] at hf
    rcases hf with hf | hf | hf
    · obtain ⟨e, he, rfl⟩ := List.mem_map.mp hf
      exact Or.inl ⟨(k, es), List.mem_cons_self _ _, e, he, Nat.le_refl _, rfl, rfl, rfl⟩
    · obtain ⟨q, hq, rfl⟩ := List.mem_map.mp hf
      exact Or.inr ⟨hq, rfl, Nat.le_refl _, rfl⟩
    · rcases ih (b + 1) (c + 1) f hf with ⟨p, hp, e, he, hb, h1, h2, h3⟩ | ⟨h1, h2, h3, h4⟩
      · exact Or.inl ⟨p, List.mem_cons_of_mem _ hp, e, he, by omega, h1, h2, h3⟩
      · exact Or.inr ⟨h1, h2, by omega, h4⟩

theorem copiesFrom_data_mem (orig : Node) (inN : List Nat) :
    ∀ (gs : List (String × List Edge)) (b c : Nat) (p : String × List Edge) (e : Edge),
      p ∈ gs → e ∈ p.2 →
      ∃ x ∈ (copiesFrom orig inN b c gs).1, x.device = some p.1 ∧ b ≤ x.nid ∧
        ({ src := x.nid, srcOut := e.srcOut, dst := e.dst, dstIn := e.dstIn } : Edge) ∈
          (copiesFrom orig inN b c gs).2 := by
  intro gs
  induction gs with
  | nil => intro b c p e hp; cases hp
  | cons q rest ih =>
    intro b c p e hp he
    obtain ⟨k, es⟩ := q
    rcases List.mem_cons.mp hp with rfl | hp
    · refine ⟨mkCopy orig b c k, by simp [copiesFrom], rfl, Nat.le_refl _, ?_⟩
      simp only [copiesFrom, List.append_assoc, List.mem_append]
      exact Or.inl (List.mem_map.mpr ⟨e, he, rfl⟩)
    · obtain ⟨x, hx, hdev, hb, hmem⟩ := ih (b + 1) (c + 1) p e hp he
      refine ⟨x, by simp [copiesFrom, hx], hdev, by omega, ?_⟩
      simp only [copiesFrom, List.append_assoc, List.mem_append]
      exact Or.inr (Or.inr hmem)

theorem copiesFrom_ctrl_mem (orig : Node) (inN : List Nat) :
    ∀ (gs : List (String × List Edge)) (b c : Nat) (x : Node) (q : Nat),
      x ∈ (copiesFrom orig inN b c gs).1 → q ∈ inN →
      ({ src := q, srcOut := -1, dst := x.nid, dstIn := -1 } : Edge) ∈
        (copiesFrom orig inN b c gs).2 := by
  intro gs
  induction gs with
  | nil => intro b c x q hx; simp [copiesFrom] at hx
  | cons p rest ih =>
    intro b c x q hx hq
    obtain ⟨k, es⟩ := p
    simp only [copiesFrom, List.mem_cons] at hx
    simp only [copiesFrom, List.append_assoc, List.mem_append]
    rcases hx with rfl | hx
    · exact Or.inr (Or.inl (List.mem_map.mpr ⟨q, hq, rfl⟩))
    · exact Or.inr (Or.inr (ih (b + 1) (c + 1) x q hx hq))

theorem copiesFrom_ctrl_countP (orig : Node) (inN : List Nat) (g0 : Nat) :
    ∀ (gs : List (String × List Edge)) (b c : Nat), g0 ≤ b →
      (∀ p ∈ gs, ∀ e ∈ p.2, e.isControlEdge = false) →
      List.countP (fun f => f.isControlEdge && decide (g0 ≤ f.dst))
        (copiesFrom orig inN b c gs).2 = gs.length * inN.length := by
  intro gs
  induction gs with
  | nil => intro b c _ _; simp [copiesFrom]
  | cons p rest ih =>
    intro b c hb hctl
    obtain ⟨k, es⟩ := p
    simp only [copiesFrom, List.countP_append]
    have hdata : List.countP (fun f => f.isControlEdge && decide (g0 ≤ f.dst))
        (dataEdgesTo b es) = 0 := by
      rw [List.countP_eq_zero]
      intro f hf
      obtain ⟨e, he, rfl⟩ := List.mem_map.mp hf
      have := hctl (k, es) (List.mem_cons_self _ _) e he
      simp [Edge.isControlEdge] at this ⊢
      intro hcc
      exact absurd hcc this
    have hctl2 : List.countP (fun f => f.isControlEdge && decide (g0 ≤ f.dst))
        (ctrlEdgesTo inN b) = inN.length := by
      have : ∀ f ∈ ctrlEdgesTo inN b, (fun f => f.isControlEdge && decide (g0 ≤ f.dst)) f = true := by
        intro f hf
        obtain ⟨q, _, rfl⟩ := List.mem_map.mp hf
        simp [Edge.isControlEdge, hb]
      calc List.countP _ (ctrlEdgesTo inN b) = (ctrlEdgesTo inN b).length :=
            List.countP_eq_length.mpr this
        _ = inN.length := by simp [ctrlEdgesTo]
    rw [hdata, hctl2, ih (b + 1) (c + 1) (by omega)
      (fun q hq e he => hctl q (List.mem_cons_of_mem _ hq) e he)]
    simp only [List.length_cons]
    ring

theorem copiesFrom_dest_countP (orig : Node) (inN : List Nat) (d : Nat) (i : Int) (hi : 0 ≤ i) :
    ∀ (gs : List (String × List Edge)) (b c : Nat),
      List.countP (fun f => f.dst == d && f.dstIn == i) (copiesFrom orig inN b c gs).2 =
        List.countP (fun e => e.dst == d && e.dstIn == i) ((gs.map Prod.snd).flatten) := by
  intro gs
  induction gs with
  | nil => intro b c; simp [copiesFrom]
  | cons p rest ih =>
    intro b c
    obtain ⟨k, es⟩ := p
    simp only [copiesFrom, List.countP_append, List.map_cons, List.flatten_cons]
    have hdata : List.countP (fun f => f.dst == d && f.dstIn == i) (dataEdgesTo b es) =
        List.countP (fun e => e.dst == d && e.dstIn == i) es := by
      simp only [dataEdgesTo, List.countP_map]
      rfl
    have hctl : List.countP (fun f => f.dst == d && f.dstIn == i) (ctrlEdgesTo inN b) = 0 := by
      rw [List.countP_eq_zero]
      intro f hf
      obtain ⟨q, _, rfl⟩ := List.mem_map.mp hf
      simp only [Bool.and_eq_true, beq_iff_eq, not_and]
      intro _
      omega
    rw [hdata, hctl, ih (b + 1) (c + 1)]
    omega

theorem replicateToEachDevice_eq (g : Graph) (n : Node) (groups : List (String × List Edge))
    (hdst : ∀ p ∈ groups, ∀ e ∈ p.2, e.dst ≠ n.nid)
    (hself : ∀ q ∈ g.inNodeIds n.nid, q ≠ n.nid)
    (hn : n.nid < g.nextId) :
    replicateToEachDevice g n groups =
      { nodes := g.nodes.filter (fun x => x.nid != n.nid)
          ++ (copiesFrom n (g.inNodeIds n.nid) g.nextId g.nameCounter groups).1
        edges := g.edges.filter (fun e => e.src != n.nid && e.dst != n.nid)
          ++ (copiesFrom n (g.inNodeIds n.nid) g.nextId g.nameCounter groups).2
        nextId := g.nextId + groups.length
        nameCounter := g.nameCounter + groups.length } := by
  unfold replicateToEachDevice
  rw [foldl_replicateGroup_eq n groups g hdst hn]
  simp only [Graph.removeNode, List.filter_append]
  have hnodes : List.filter (fun x => x.nid != n.nid)
      (copiesFrom n (g.inNodeIds n.nid) g.nextId g.nameCounter groups).1 =
      (copiesFrom n (g.inNodeIds n.nid) g.nextId g.nameCounter groups).1 := by
    rw [List.filter_eq_self]
    intro x hx
    have := copiesFrom_nid_ge n (g.inNodeIds n.nid) groups g.nextId g.nameCounter x hx
    simp only [bne_iff_ne, ne_eq]
    omega
  have hedges : List.filter (fun e => e.src != n.nid && e.dst != n.nid)
      (copiesFrom n (g.inNodeIds n.nid) g.nextId g.nameCounter groups).2 =
      (copiesFrom n (g.inNodeIds n.nid) g.nextId g.nameCounter groups).2 := by
    rw [List.filter_eq_self]
    intro f hf
    rcases copiesFrom_edges_mem n (g.inNodeIds n.nid) groups g.nextId g.nameCounter f hf with
      ⟨p, hp, e, he, hb, _, h2, _⟩ | ⟨h1, _, h3, _⟩
    · have := hdst p hp e he
      simp only [Bool.and_eq_true, bne_iff_ne, ne_eq]
      omega
    · have := hself f.src h1
      simp only [Bool.and_eq_true, bne_iff_ne, ne_eq]
      omega
  rw [hnodes, hedges]

/-- Facts about a constant the pass is about to replicate, derived from
    graph validity: no successor bucket edge points back at the constant,
    no in-edge comes from the constant itself, every bucket edge is one of
    the constant's (data) out-edges, and the constant's id is below the
    fresh-id watermark. -/
theorem eligible_aux {R : DeviceNameResolver} {g : Graph} {n : Node}
    {groups : List (String × List Edge)}
    (hWF : g.WF) (hget : g.getNode n.nid = some n) (hc : n.isConstant = true)
    (hctl : hasControlOut g n = false) (hgr : getSuccessorEdges R g n = .ok groups) :
    (∀ e ∈ g.outEdges n, e.isControlEdge = false)
    ∧ (∀ p ∈ groups, ∀ e ∈ p.2, e.dst ≠ n.nid ∧ e.isControlEdge = false ∧ e ∈ g.outEdges n)
    ∧ (∀ q ∈ g.inNodeIds n.nid, q ≠ n.nid)
    ∧ n.nid < g.nextId := by
  obtain ⟨hnodup, hbound, hend, hslot, huniq, hnodata⟩ := hWF
  obtain ⟨hmem, _⟩ := getNode_mem hget
  have hall : ∀ e ∈ g.outEdges n, e.isControlEdge = false := by
    intro e he
    cases hcc : e.isControlEdge with
    | false => rfl
    | true =>
      have : hasControlOut g n = true := by
        simp only [hasControlOut, List.any_eq_true]
        exact ⟨e, he, hcc⟩
      rw [hctl] at this
      cases this
  have hout_ne : ∀ e ∈ g.outEdges n, e.dst ≠ n.nid := by
    intro e he hdd
    have heg : e ∈ g.edges := (mem_outEdges.mp he).1
    have := hnodata e heg (hall e he) n hmem hdd.symm
    rw [hc] at this
    cases this
  refine ⟨hall, ?_, ?_, hbound n hmem⟩
  · intro p hp e he
    have heo := getSuccessorEdges_bucket_sub hgr hp he
    exact ⟨hout_ne e heo, hall e heo, heo⟩
  · intro q hq hqq
    obtain ⟨f, hf, rfl⟩ := List.mem_map.mp hq
    have hfe : f ∈ g.edges := (List.mem_filter.mp hf).1
    have hfd : f.dst = n.nid := by
      have := (List.mem_filter.mp hf).2
      simpa using this
    have hfo : f ∈ g.outEdges n := mem_outEdges.mpr ⟨hfe, hqq⟩
    cases hcc : f.isControlEdge with
    | true =>
      have : hasControlOut g n = true := by
        simp only [hasControlOut, List.any_eq_true]
        exact ⟨f, hfo, hcc⟩
      rw [hctl] at this
      cases this
    | false =>
      have := hnodata f hfe hcc n hmem hfd.symm
      rw [hc] at this
      cases this

/-- C7: The pass is a pure function of the input graph, so two runs on
    identical inputs are identical; the load-bearing ordering fact is that
    for every replicated constant the replicas are created in ascending
    byte-lexicographic order of their destination device identifiers
    (device_to_edges is an ordered btree_map), and the disambiguating
    name counter is consumed in exactly that order, so the j-th replica in
    device order carries name <original>/replicate/_<counter + j>. -/
theorem c7_deterministic_order (R : DeviceNameResolver) (s : PassState) (g : Graph) (n : Node)
    (proto : TensorShapeProto) (ne : Int) (groups : List (String × List Edge))
    (hWF : g.WF) (hs : s.graph = g)
    (hget : g.getNode n.nid = some n) (hc : n.isConstant = true)
    (hdeg : 1 < (g.outEdges n).length) (hctl : hasControlOut g n = false)
    (hval : n.value = some proto) (hb : buildShapeNumElements proto = some ne)
    (hsz : ne ≤ kMaxSize) (hdev : n.device.isNone = false) (hcpu : hasCpuDevice R n = true)
    (hgr : getSuccessorEdges R g n = .ok groups) (hlen : 1 < groups.length) :
    processNode R s n.nid = .ok { s with graph := replicateToEachDevice g n groups }
    ∧ runPass R g = runPass R g
    ∧ (replicateToEachDevice g n groups).nodes =
        g.nodes.filter (fun x => x.nid != n.nid)
          ++ (copiesFrom n (g.inNodeIds n.nid) g.nextId g.nameCounter groups).1
    ∧ ((copiesFrom n (g.inNodeIds n.nid) g.nextId g.nameCounter groups).1).map
        (fun x => x.device) = groups.map (fun p => some p.1)
    ∧ List.Chain' (fun a b => strLt a b = true) (groups.map Prod.fst)
    ∧ ((copiesFrom n (g.inNodeIds n.nid) g.nextId g.nameCounter groups).1).map
        (fun x => x.name) =
        (List.range groups.length).map
          (fun j => n.name ++ "/replicate/_" ++ toString (g.nameCounter + j)) := by
  obtain ⟨_, hbkt, hself, hn⟩ := eligible_aux hWF hget hc hctl hgr
  have hdst : ∀ p ∈ groups, ∀ e ∈ p.2, e.dst ≠ n.nid := fun p hp e he => (hbkt p hp e he).1
  have hr := replicateToEachDevice_eq g n groups hdst hself hn
  subst hs
  refine ⟨processNode_replicates R s n.nid n proto ne groups hget hc hdeg hctl hval hb hsz
      hdev hcpu hgr hlen, rfl, ?_, ?_, ?_, ?_⟩
  · rw [hr]
  · exact copiesFrom_device_map n (s.graph.inNodeIds n.nid) groups s.graph.nextId
      s.graph.nameCounter
  · exact getSuccessorEdges_sorted hgr
  · exact copiesFrom_name_map n (s.graph.inNodeIds n.nid) groups s.graph.nextId
      s.graph.nameCounter

/-- Witness for C7 on gEx: the successor grouping of constant "C" lists
    host a before host b, the two replicas are created in that device
    order with counter values 0 and 1, and the rewritten graph is
    gExAfter. -/
theorem c7_deterministic_order_witness :
    processNode toyR (initialState gEx) 0 =
      .ok { graph := gExAfter, minSkipped := int64Max, maxSkipped := int64Min }
    ∧ gExAfter.nodes.map (fun x => (x.name, x.device)) =
        [("k1", some "a0"), ("k2", some "b0"), ("k3", some "a0"),
         ("C/replicate/_0", some "a0"), ("C/replicate/_1", some "b0")]
    ∧ List.Chain' (fun a b => strLt a b = true) ["a0", "b0"] := by
  have h := c7_deterministic_order toyR (initialState gEx) gEx
    { nid := 0, name := "C", isConstant := true, device := some "a0", value := some (shp [4]) }
    (shp [4]) 4 [("a0", [⟨0, 0, 1, 0⟩, ⟨0, 0, 3, 1⟩]), ("b0", [⟨0, 0, 2, 0⟩])]
    (by decide) rfl (by decide) (by decide) (by decide) (by decide) (by decide) (by decide)
    (by decide) (by decide) (by decide) (by decide) (by decide)
  refine ⟨Eq.trans h.1 (by decide), by decide, ?_⟩
  simpa using h.2.2.2.2.1

theorem copiesFrom_countP_eq (orig : Node) (inN : List Nat) (p : Edge → Bool)
    (hdata : ∀ (cid : Nat) (e : Edge),
      p { src := cid, srcOut := e.srcOut, dst := e.dst, dstIn := e.dstIn } = p e)
    (hneg : ∀ f : Edge, f.dstIn = -1 → p f = false) :
    ∀ (gs : List (String × List Edge)) (b c : Nat),
      List.countP p (copiesFrom orig inN b c gs).2 =
        List.countP p ((gs.map Prod.snd).flatten) := by
  intro gs
  induction gs with
  | nil => intro b c; simp [copiesFrom]
  | cons q rest ih =>
    intro b c
    obtain ⟨k, es⟩ := q
    simp only [copiesFrom, List.countP_append, List.map_cons, List.flatten_cons]
    have h1 : List.countP p (dataEdgesTo b es) = List.countP p es := by
      simp only [dataEdgesTo, List.countP_map]
      exact List.countP_congr (fun e _ => by simp [Function.comp, hdata b e])
    have h2 : List.countP p (ctrlEdgesTo inN b) = 0 := by
      rw [List.countP_eq_zero]
      intro f hf
      obtain ⟨q2, _, rfl⟩ := List.mem_map.mp hf
      rw [hneg { src := q2, srcOut := -1, dst := b, dstIn := -1 } rfl]
      simp
    rw [h1, h2, ih (b + 1) (c + 1)]
    omega

/-- C1: For every constant that passes all seven eligibility tests, after
    ReplicateToEachDevice each original data-edge destination (node and
    input slot) is fed by exactly one data edge, which comes from a replica
    (a fresh node assigned to the destination's resolved CPU device) out of
    the matching output slot; and the total number of data edges into the
    original destinations equals the constant's original data out-degree. -/
theorem c1_fanout (R : DeviceNameResolver) (s : PassState) (g : Graph) (n : Node)
    (proto : TensorShapeProto) (ne : Int) (groups : List (String × List Edge))
    (hWF : g.WF) (hs : s.graph = g)
    (hget : g.getNode n.nid = some n) (hc : n.isConstant = true)
    (hdeg : 1 < (g.outEdges n).length) (hctl : hasControlOut g n = false)
    (hval : n.value = some proto) (hb : buildShapeNumElements proto = some ne)
    (hsz : ne ≤ kMaxSize) (hdev : n.device.isNone = false) (hcpu : hasCpuDevice R n = true)
    (hgr : getSuccessorEdges R g n = .ok groups) (hlen : 1 < groups.length) :
    processNode R s n.nid = .ok { s with graph := replicateToEachDevice g n groups }
    ∧ (∀ e₀ ∈ g.outEdges n,
        List.countP (fun f => f.dst == e₀.dst && f.dstIn == e₀.dstIn)
          (replicateToEachDevice g n groups).edges = 1
        ∧ ∃ dev x, getDestinationCpuDevice R (g.destNode e₀) = .ok dev
            ∧ x ∈ (replicateToEachDevice g n groups).nodes
            ∧ g.nextId ≤ x.nid
            ∧ x.device = some dev
            ∧ ({ src := x.nid, srcOut := e₀.srcOut, dst := e₀.dst, dstIn := e₀.dstIn } : Edge) ∈
                (replicateToEachDevice g n groups).edges)
    ∧ List.countP (fun f => (g.outEdges n).any
          (fun e₀ => f.dst == e₀.dst && f.dstIn == e₀.dstIn))
        (replicateToEachDevice g n groups).edges = (g.outEdges n).length := by
  subst hs
  obtain ⟨hall, hbkt, hself, hn⟩ := eligible_aux hWF hget hc hctl hgr
  have hdst : ∀ p ∈ groups, ∀ e ∈ p.2, e.dst ≠ n.nid := fun p hp e he => (hbkt p hp e he).1
  have hr := replicateToEachDevice_eq s.graph n groups hdst hself hn
  obtain ⟨hnodup, hbound, hend, hslot, huniq, hnodata⟩ := hWF
  -- every data out-edge has a nonnegative input slot
  have hIn0 : ∀ e₀ ∈ s.graph.outEdges n, 0 ≤ e₀.dstIn := by
    intro e₀ he₀
    have he₀g : e₀ ∈ s.graph.edges := (mem_outEdges.mp he₀).1
    rcases hslot e₀ he₀g with ⟨hso, _⟩ | ⟨_, hdi⟩
    · have := hall e₀ he₀
      simp [Edge.isControlEdge, hso] at this
    · exact hdi
  -- the only edge of g into e₀'s destination slot is e₀ itself
  have hsingle : ∀ e₀ ∈ s.graph.outEdges n,
      s.graph.edges.filter (fun f => f.dst == e₀.dst && f.dstIn == e₀.dstIn) = [e₀] := by
    intro e₀ he₀
    have he₀g : e₀ ∈ s.graph.edges := (mem_outEdges.mp he₀).1
    have hle := huniq e₀ he₀g (hIn0 e₀ he₀)
    have hmem : e₀ ∈ s.graph.edges.filter (fun f => f.dst == e₀.dst && f.dstIn == e₀.dstIn) :=
      List.mem_filter.mpr ⟨he₀g, by simp⟩
    have hge : 1 ≤ (s.graph.edges.filter (fun f => f.dst == e₀.dst && f.dstIn == e₀.dstIn)).length :=
      List.length_pos_of_mem hmem
    have hlen1 : (s.graph.edges.filter (fun f => f.dst == e₀.dst && f.dstIn == e₀.dstIn)).length = 1 :=
      Nat.le_antisymm hle hge
    obtain ⟨a, ha⟩ := List.length_eq_one.mp hlen1
    rw [ha] at hmem
    simp only [List.mem_singleton] at hmem
    rw [ha, hmem]
  have huniq2 : ∀ e₀ ∈ s.graph.outEdges n, ∀ f ∈ s.graph.edges,
      (f.dst == e₀.dst && f.dstIn == e₀.dstIn) = true → f = e₀ := by
    intro e₀ he₀ f hf hp
    have : f ∈ s.graph.edges.filter (fun f => f.dst == e₀.dst && f.dstIn == e₀.dstIn) :=
      List.mem_filter.mpr ⟨hf, hp⟩
    rw [hsingle e₀ he₀] at this
    simpa using this
  refine ⟨processNode_replicates R s n.nid n proto ne groups hget hc hdeg
    hctl hval hb hsz hdev hcpu hgr hlen, ?_, ?_⟩
  · intro e₀ he₀
    constructor
    · rw [hr]
      simp only [List.countP_append]
      have hkept : List.countP (fun f => f.dst == e₀.dst && f.dstIn == e₀.dstIn)
          (s.graph.edges.filter (fun e => e.src != n.nid && e.dst != n.nid)) = 0 := by
        rw [List.countP_eq_zero]
        intro f hf hp
        have hfg : f ∈ s.graph.edges := (List.mem_filter.mp hf).1
        have hfq := (List.mem_filter.mp hf).2
        have := huniq2 e₀ he₀ f hfg hp
        subst this
        have hfs : f.src = n.nid := (mem_outEdges.mp he₀).2
        simp [hfs] at hfq
      have hnew : List.countP (fun f => f.dst == e₀.dst && f.dstIn == e₀.dstIn)
          (copiesFrom n (s.graph.inNodeIds n.nid) s.graph.nextId s.graph.nameCounter groups).2 = 1 := by
        rw [copiesFrom_countP_eq n (s.graph.inNodeIds n.nid)
          (fun f => f.dst == e₀.dst && f.dstIn == e₀.dstIn)
          (fun cid e => rfl)
          (fun f hneg => by
            have h2 : (f.dstIn == e₀.dstIn) = false := by
              rw [hneg, beq_eq_false_iff_ne]
              have := hIn0 e₀ he₀
              omega
            simp [h2])]
        rw [(getSuccessorEdges_flatten_perm hgr).countP_eq]
        have houtf : List.countP (fun f => f.dst == e₀.dst && f.dstIn == e₀.dstIn)
            (s.graph.outEdges n) =
            List.countP (fun f => (f.dst == e₀.dst && f.dstIn == e₀.dstIn)
              && (f.src == n.nid)) s.graph.edges := by
          simp only [Graph.outEdges, List.countP_filter]
        rw [houtf]
        have hle2 : List.countP (fun f => (f.dst == e₀.dst && f.dstIn == e₀.dstIn)
            && (f.src == n.nid)) s.graph.edges ≤
            List.countP (fun f => f.dst == e₀.dst && f.dstIn == e₀.dstIn) s.graph.edges :=
          List.countP_mono_left (fun f _ hp => by
            simp only [Bool.and_eq_true] at hp
            simp [hp.1])
        have heq1 : List.countP (fun f => f.dst == e₀.dst && f.dstIn == e₀.dstIn) s.graph.edges = 1 := by
          rw [List.countP_eq_length_filter, hsingle e₀ he₀]
          rfl
        have hge2 : 0 < List.countP (fun f => (f.dst == e₀.dst && f.dstIn == e₀.dstIn)
            && (f.src == n.nid)) s.graph.edges := by
          rw [List.countP_pos]
          refine ⟨e₀, (mem_outEdges.mp he₀).1, ?_⟩
          have hfs : e₀.src = n.nid := (mem_outEdges.mp he₀).2
          simp [hfs]
        omega
      rw [hkept, hnew]
    · have he₀f : e₀ ∈ ((groups.map Prod.snd)).flatten :=
        (getSuccessorEdges_flatten_perm hgr).mem_iff.mpr he₀
      obtain ⟨bs, hbs, he₀b⟩ := List.mem_flatten.mp he₀f
      obtain ⟨p, hp, rfl⟩ := List.mem_map.mp hbs
      have hkey := getSuccessorEdges_keys hgr p hp e₀ he₀b
      obtain ⟨x, hx, hxdev, hxb, hxe⟩ :=
        copiesFrom_data_mem n (s.graph.inNodeIds n.nid) groups s.graph.nextId s.graph.nameCounter p e₀ hp he₀b
      refine ⟨p.1, x, hkey, ?_, hxb, hxdev, ?_⟩
      · rw [hr]
        exact List.mem_append_right _ hx
      · rw [hr]
        exact List.mem_append_right _ hxe
  · rw [hr]
    simp only [List.countP_append]
    have hkept : List.countP (fun f => (s.graph.outEdges n).any
        (fun e₀ => f.dst == e₀.dst && f.dstIn == e₀.dstIn))
        (s.graph.edges.filter (fun e => e.src != n.nid && e.dst != n.nid)) = 0 := by
      rw [List.countP_eq_zero]
      intro f hf hp
      obtain ⟨e₀, he₀, hpe⟩ := List.any_eq_true.mp hp
      have hfg : f ∈ s.graph.edges := (List.mem_filter.mp hf).1
      have hfq := (List.mem_filter.mp hf).2
      have := huniq2 e₀ he₀ f hfg hpe
      subst this
      have hfs : f.src = n.nid := (mem_outEdges.mp he₀).2
      simp [hfs] at hfq
    have hnew : List.countP (fun f => (s.graph.outEdges n).any
        (fun e₀ => f.dst == e₀.dst && f.dstIn == e₀.dstIn))
        (copiesFrom n (s.graph.inNodeIds n.nid) s.graph.nextId s.graph.nameCounter groups).2 =
        (s.graph.outEdges n).length := by
      rw [copiesFrom_countP_eq n (s.graph.inNodeIds n.nid)
        (fun f => (s.graph.outEdges n).any (fun e₀ => f.dst == e₀.dst && f.dstIn == e₀.dstIn))
        (fun cid e => rfl)
        (fun f hneg => by
          rw [List.any_eq_false]
          intro e₀ he₀
          have h2 : (f.dstIn == e₀.dstIn) = false := by
            rw [hneg, beq_eq_false_iff_ne]
            have := hIn0 e₀ he₀
            omega
          simp [h2])]
      rw [(getSuccessorEdges_flatten_perm hgr).countP_eq]
      rw [List.countP_eq_length]
      intro e he
      rw [List.any_eq_true]
      exact ⟨e, he, by simp⟩
    rw [hkept, hnew]
    omega

/-- Witness for C1 on gEx: the three original destinations (k1 slot 0,
    k2 slot 0, k3 slot 1) each receive exactly one data edge after the
    rewrite, and the total over the original destinations is 3, the
    original out-degree of "C". -/
theorem c1_fanout_witness :
    processNode toyR (initialState gEx) 0 =
      .ok { graph := gExAfter, minSkipped := int64Max, maxSkipped := int64Min }
    ∧ List.countP (fun f => f.dst == 1 && f.dstIn == (0 : Int)) gExAfter.edges = 1
    ∧ List.countP (fun f => f.dst == 2 && f.dstIn == (0 : Int)) gExAfter.edges = 1
    ∧ List.countP (fun f => f.dst == 3 && f.dstIn == (1 : Int)) gExAfter.edges = 1
    ∧ List.countP (fun f =>
        (gEx.outEdges ⟨0, "C", true, some "a0", some (shp [4])⟩).any
          (fun e₀ => f.dst == e₀.dst && f.dstIn == e₀.dstIn)) gExAfter.edges = 3 := by
  have h := c1_fanout toyR (initialState gEx) gEx
    { nid := 0, name := "C", isConstant := true, device := some "a0", value := some (shp [4]) }
    (shp [4]) 4 [("a0", [⟨0, 0, 1, 0⟩, ⟨0, 0, 3, 1⟩]), ("b0", [⟨0, 0, 2, 0⟩])]
    (by decide) rfl (by decide) (by decide) (by decide) (by decide) (by decide) (by decide)
    (by decide) (by decide) (by decide) (by decide) (by decide)
  exact ⟨Eq.trans h.1 (by decide), by decide, by decide, by decide, by decide⟩

/-- C2 (counterexample): in gDup the constant "C" has k = 1 inbound
    neighbor (node "p", which holds two duplicate control edges into "C")
    and is replicated into m = 2 device groups, yet the pass adds 4 new
    control edges into the replicas, not k * m = 2: the code adds one
    control edge per inbound EDGE, not per inbound neighbor. -/
theorem c2_control_fanin_counterexample :
    getSuccessorEdges toyR gDup
        { nid := 1, name := "C", isConstant := true, device := some "a0",
          value := some (shp [2]) } =
      .ok [("a0", [⟨1, 0, 2, 0⟩]), ("b0", [⟨1, 0, 3, 0⟩])]
    ∧ (gDup.edges.filter (fun e => e.dst == 1)).map (fun e => e.src) = [0, 0]
    ∧ (runPass toyR gDup).err = none
    ∧ List.countP (fun f => f.isControlEdge && decide (4 ≤ f.dst))
        (runPass toyR gDup).graph.edges = 4
    ∧ 4 ≠ 1 * 2 := by
  refine ⟨by decide, by decide, by decide, by decide, by decide⟩

/-- C2 (amended): when a constant is replicated into its m = groups.length
    device groups, every replica receives a control edge from each inbound
    neighbor, and the code adds exactly one new control edge per inbound
    EDGE and per replica — m * (#inbound edges) in total, which equals
    k * m for k distinct inbound neighbors exactly when the inbound edges
    have pairwise distinct sources. -/
theorem c2_control_fanin (R : DeviceNameResolver) (s : PassState) (g : Graph) (n : Node)
    (proto : TensorShapeProto) (ne : Int) (groups : List (String × List Edge))
    (hWF : g.WF) (hs : s.graph = g)
    (hget : g.getNode n.nid = some n) (hc : n.isConstant = true)
    (hdeg : 1 < (g.outEdges n).length) (hctl : hasControlOut g n = false)
    (hval : n.value = some proto) (hb : buildShapeNumElements proto = some ne)
    (hsz : ne ≤ kMaxSize) (hdev : n.device.isNone = false) (hcpu : hasCpuDevice R n = true)
    (hgr : getSuccessorEdges R g n = .ok groups) (hlen : 1 < groups.length) :
    processNode R s n.nid = .ok { s with graph := replicateToEachDevice g n groups }
    ∧ ((copiesFrom n (g.inNodeIds n.nid) g.nextId g.nameCounter groups).1).length =
        groups.length
    ∧ (∀ x ∈ (copiesFrom n (g.inNodeIds n.nid) g.nextId g.nameCounter groups).1,
        ∀ q ∈ g.inNodeIds n.nid,
          ({ src := q, srcOut := -1, dst := x.nid, dstIn := -1 } : Edge) ∈
            (replicateToEachDevice g n groups).edges)
    ∧ List.countP (fun f => f.isControlEdge && decide (g.nextId ≤ f.dst))
        (replicateToEachDevice g n groups).edges =
        groups.length * (g.inNodeIds n.nid).length
    ∧ ((g.inNodeIds n.nid).Nodup →
        List.countP (fun f => f.isControlEdge && decide (g.nextId ≤ f.dst))
          (replicateToEachDevice g n groups).edges =
          groups.length * (g.inNodeIds n.nid).dedup.length) := by
  obtain ⟨_, hbkt, hself, hn⟩ := eligible_aux hWF hget hc hctl hgr
  have hdst : ∀ p ∈ groups, ∀ e ∈ p.2, e.dst ≠ n.nid := fun p hp e he => (hbkt p hp e he).1
  have hr := replicateToEachDevice_eq g n groups hdst hself hn
  have hcount : List.countP (fun f => f.isControlEdge && decide (g.nextId ≤ f.dst))
      (replicateToEachDevice g n groups).edges =
      groups.length * (g.inNodeIds n.nid).length := by
    rw [hr]
    simp only [List.countP_append]
    have hkept : List.countP (fun f => f.isControlEdge && decide (g.nextId ≤ f.dst))
        (g.edges.filter (fun e => e.src != n.nid && e.dst != n.nid)) = 0 := by
      rw [List.countP_eq_zero]
      intro f hf
      have hfe : f ∈ g.edges := (List.mem_filter.mp hf).1
      obtain ⟨_, ⟨x, hx, hxe⟩⟩ := hWF.2.2.1 f hfe
      have hxb := hWF.2.1 x hx
      simp only [Bool.and_eq_true, decide_eq_true_eq, not_and]
      intro _
      omega
    have hnew : List.countP (fun f => f.isControlEdge && decide (g.nextId ≤ f.dst))
        (copiesFrom n (g.inNodeIds n.nid) g.nextId g.nameCounter groups).2 =
        groups.length * (g.inNodeIds n.nid).length :=
      copiesFrom_ctrl_countP n (g.inNodeIds n.nid) g.nextId groups g.nextId g.nameCounter
        (Nat.le_refl _) (fun p hp e he => (hbkt p hp e he).2.1)
    rw [hkept, hnew]
    omega
  subst hs
  refine ⟨processNode_replicates R s n.nid n proto ne groups hget hc hdeg hctl hval hb hsz
      hdev hcpu hgr hlen,
    copiesFrom_fst_length n (s.graph.inNodeIds n.nid) groups s.graph.nextId s.graph.nameCounter,
    ?_, hcount, ?_⟩
  · intro x hx q hq
    rw [hr]
    exact List.mem_append_right _
      (copiesFrom_ctrl_mem n (s.graph.inNodeIds n.nid) groups s.graph.nextId
        s.graph.nameCounter x q hx hq)
  · intro hnodup
    rw [hcount, List.Nodup.dedup hnodup]

/-- Witness for C2 (amended) on gDup: both replicas of "C" receive a
    control edge from the sole inbound neighbor "p", and the total number
    of new control edges is m * (#inbound edges) = 2 * 2 = 4. -/
theorem c2_control_fanin_witness :
    processNode toyR (initialState gDup) 1 =
      .ok { graph := gDupAfter, minSkipped := int64Max, maxSkipped := int64Min }
    ∧ (∀ q ∈ gDup.inNodeIds 1,
        ({ src := q, srcOut := -1, dst := 4, dstIn := -1 } : Edge) ∈ gDupAfter.edges
        ∧ ({ src := q, srcOut := -1, dst := 5, dstIn := -1 } : Edge) ∈ gDupAfter.edges)
    ∧ List.countP (fun f => f.isControlEdge && decide (gDup.nextId ≤ f.dst))
        gDupAfter.edges = 2 * 2 := by
  have h := c2_control_fanin toyR (initialState gDup) gDup
    { nid := 1, name := "C", isConstant := true, device := some "a0", value := some (shp [2]) }
    (shp [2]) 2 [("a0", [⟨1, 0, 2, 0⟩]), ("b0", [⟨1, 0, 3, 0⟩])]
    (by decide) rfl (by decide) (by decide) (by decide) (by decide) (by decide) (by decide)
    (by decide) (by decide) (by decide) (by decide) (by decide)
  exact ⟨Eq.trans h.1 (by decide), by decide, by decide⟩

/-- C10: A Constant with more than one outbound edge and no outbound
    control edge whose "value" attribute is missing, or whose declared
    shape cannot be constructed, makes the loop body fail with the
    corresponding error — with no assumption about its assigned device, so
    this happens even when a later eligibility test (no assigned device,
    non-CPU device, single consumer device) would have skipped the node —
    and once the loop reaches such a node the entire pass aborts with that
    error. -/
theorem c10_attr_errors_precede_device_tests (R : DeviceNameResolver) :
    (∀ s (n : Node), s.graph.getNode n.nid = some n → n.isConstant = true →
      1 < (s.graph.outEdges n).length → hasControlOut s.graph n = false →
      ((n.value = none → processNode R s n.nid = .error (.missingValueAttr n.name))
        ∧ ∀ proto, n.value = some proto → buildShapeNumElements proto = none →
            processNode R s n.nid = .error (.malformedTensorShape n.name)))
    ∧ (∀ g (n : Node) pre post s₁, g.nodes.map Node.nid = pre ++ n.nid :: post →
        runNodes R (initialState g) pre = (s₁, none) →
        s₁.graph.getNode n.nid = some n → n.isConstant = true →
        1 < (s₁.graph.outEdges n).length → hasControlOut s₁.graph n = false →
        (n.value = none ∨ ∃ proto, n.value = some proto ∧ buildShapeNumElements proto = none) →
        ∃ e, runPass R g = { graph := s₁.graph, summary := none, err := some e }
          ∧ (e = .missingValueAttr n.name ∨ e = .malformedTensorShape n.name)) := by
  constructor
  · intro s n hget hc hdeg hctl
    exact ⟨fun hval => processNode_missing_attr R s n.nid n hget hc hdeg hctl hval,
      fun proto hval hb => processNode_bad_shape R s n.nid n proto hget hc hdeg hctl hval hb⟩
  · intro g n pre post s₁ hsplit hpre hget hc hdeg hctl hbad
    have hp : ∃ e, processNode R s₁ n.nid = .error e
        ∧ (e = .missingValueAttr n.name ∨ e = .malformedTensorShape n.name) := by
      rcases hbad with hval | ⟨proto, hval, hb⟩
      · exact ⟨_, processNode_missing_attr R s₁ n.nid n hget hc hdeg hctl hval, Or.inl rfl⟩
      · exact ⟨_, processNode_bad_shape R s₁ n.nid n proto hget hc hdeg hctl hval hb, Or.inr rfl⟩
    obtain ⟨e, hp, hkind⟩ := hp
    refine ⟨e, ?_, hkind⟩
    have : runNodes R (initialState g) (g.nodes.map Node.nid) = (s₁, some e) := by
      rw [hsplit, runNodes_append, hpre]
      simp [runNodes, hp]
    simp [runPass, this]

/-- Witness for C10 on gMissing: constant "M" has two cross-host consumers,
    no control successor, no "value" attribute and also no assigned device
    (so eligibility test 5 would have skipped it), yet the pass aborts with
    the missing-attribute error. -/
theorem c10_attr_errors_precede_device_tests_witness :
    (runPass toyR gMissing =
      { graph := gMissing, summary := none, err := some (.missingValueAttr "M") })
    ∧ ({ nid := 0, name := "M", isConstant := true, device := none,
          value := none } : Node).device = none := by
  have h := (c10_attr_errors_precede_device_tests toyR).2 gMissing
    { nid := 0, name := "M", isConstant := true, device := none, value := none }
    [] [1, 2] (initialState gMissing) (by decide) rfl (by decide) (by decide) (by decide)
    (by decide) (Or.inl rfl)
  obtain ⟨e, hrun, hkind⟩ := h
  rcases hkind with rfl | rfl
  · exact ⟨hrun, rfl⟩
  · exact absurd hrun (by decide)

theorem strLtAux_irrefl : ∀ l : List Char, strLtAux l l = false := by
  intro l
  induction l with
  | nil => rfl
  | cons c cs ih => simp [strLtAux, ih]

theorem strLt_irrefl (k : String) : strLt k k = false := strLtAux_irrefl k.data

theorem nid_unique : ∀ (l : List Node), (l.map Node.nid).Nodup →
    ∀ {x y : Node}, x ∈ l → y ∈ l → x.nid = y.nid → x = y := by
  intro l
  induction l with
  | nil => intro _ x y hx; cases hx
  | cons z rest ih =>
    intro hnd x y hx hy hxy
    simp only [List.map_cons, List.nodup_cons] at hnd
    rcases List.mem_cons.mp hx with hxz | hx2
    · rcases List.mem_cons.mp hy with hyz | hy2
      · rw [hxz, hyz]
      · refine absurd ?_ hnd.1
        have h2 : z.nid = y.nid := by rw [← hxz]; exact hxy
        rw [h2]
        exact List.mem_map_of_mem Node.nid hy2
    · rcases List.mem_cons.mp hy with hyz | hy2
      · refine absurd ?_ hnd.1
        have h2 : z.nid = x.nid := by rw [← hyz]; exact hxy.symm
        rw [h2]
        exact List.mem_map_of_mem Node.nid hx2
      · exact ih hnd.2 hx2 hy2 hxy

theorem find?_nid_nodup : ∀ (l : List Node) (x : Node), (l.map Node.nid).Nodup →
    x ∈ l → l.find? (fun y => y.nid == x.nid) = some x := by
  intro l
  induction l with
  | nil => intro x _ hx; cases hx
  | cons z rest ih =>
    intro x hnd hx
    simp only [List.map_cons, List.nodup_cons] at hnd
    rcases List.mem_cons.mp hx with rfl | hx
    · simp [List.find?]
    · have hne : z.nid ≠ x.nid := by
        intro h
        exact hnd.1 (h ▸ List.mem_map_of_mem Node.nid hx)
      rw [List.find?]
      have hz : (z.nid == x.nid) = false := by simpa using hne
      rw [hz]
      exact ih x hnd.2 hx

theorem countP_disjoint (p q : Edge → Bool) :
    ∀ l : List Edge, (∀ a ∈ l, ¬(p a = true ∧ q a = true)) →
      List.countP p l + List.countP q l = List.countP (fun a => p a || q a) l := by
  intro l
  induction l with
  | nil => intro _; rfl
  | cons a rest ih =>
    intro hd
    have hrest := ih (fun x hx => hd x (List.mem_cons_of_mem a hx))
    have ha := hd a (List.mem_cons_self a rest)
    cases hp : p a <;> cases hq : q a
    · simp [List.countP_cons, hp, hq] <;> omega
    · simp [List.countP_cons, hp, hq] <;> omega
    · simp [List.countP_cons, hp, hq] <;> omega
    · exact absurd ⟨hp, hq⟩ ha

theorem copiesFrom_nid_map (orig : Node) (inN : List Nat) :
    ∀ (gs : List (String × List Edge)) (b c : Nat),
      ((copiesFrom orig inN b c gs).1).map Node.nid =
        (List.range gs.length).map (fun j => b + j) := by
  intro gs
  induction gs with
  | nil => intro b c; simp [copiesFrom]
  | cons p rest ih =>
    intro b c
    obtain ⟨k, es⟩ := p
    simp only [copiesFrom, List.map_cons, mkCopy, List.length_cons, List.range_succ_eq_map,
      List.map_map, ih]
    refine congrArg₂ _ (by simp) ?_
    refine List.map_congr_left ?_
    intro j _
    simp only [Function.comp]
    omega

theorem copiesFrom_nid_lt (orig : Node) (inN : List Nat) :
    ∀ (gs : List (String × List Edge)) (b c : Nat) (x : Node),
      x ∈ (copiesFrom orig inN b c gs).1 → x.nid < b + gs.length := by
  intro gs b c x hx
  have h1 : x.nid ∈ ((copiesFrom orig inN b c gs).1).map Node.nid :=
    List.mem_map_of_mem Node.nid hx
  rw [copiesFrom_nid_map] at h1
  obtain ⟨j, hj, hje⟩ := List.mem_map.mp h1
  rw [← hje]
  have := List.mem_range.mp hj
  omega

theorem copiesFrom_fields (orig : Node) (inN : List Nat) :
    ∀ (gs : List (String × List Edge)) (b c : Nat) (x : Node),
      x ∈ (copiesFrom orig inN b c gs).1 →
      x.value = orig.value ∧ x.isConstant = orig.isConstant ∧ b ≤ x.nid := by
  intro gs
  induction gs with
  | nil => intro b c x hx; simp [copiesFrom] at hx
  | cons p rest ih =>
    intro b c x hx
    obtain ⟨k, es⟩ := p
    simp only [copiesFrom, List.mem_cons] at hx
    rcases hx with rfl | hx
    · exact ⟨rfl, rfl, Nat.le_refl _⟩
    · obtain ⟨h1, h2, h3⟩ := ih (b + 1) (c + 1) x hx
      exact ⟨h1, h2, by omega⟩

theorem copiesFrom_edge_endpoints (orig : Node) (inN : List Nat) :
    ∀ (gs : List (String × List Edge)) (b c : Nat) (f : Edge),
      f ∈ (copiesFrom orig inN b c gs).2 →
      ((∃ x ∈ (copiesFrom orig inN b c gs).1, x.nid = f.src) ∨ f.src ∈ inN)
      ∧ ((∃ x ∈ (copiesFrom orig inN b c gs).1, x.nid = f.dst)
          ∨ ∃ p ∈ gs, ∃ e ∈ p.2, f.dst = e.dst) := by
  intro gs
  induction gs with
  | nil => intro b c f hf; simp [copiesFrom] at hf
  | cons p rest ih =>
    intro b c f hf
    obtain ⟨k, es⟩ := p
    simp only [copiesFrom, List.append_assoc, List.mem_append] at hf
    rcases hf with hf | hf | hf
    · obtain ⟨e, he, rfl⟩ := List.mem_map.mp hf
      constructor
      · exact Or.inl ⟨mkCopy orig b c k, by simp [copiesFrom], rfl⟩
      · exact Or.inr ⟨(k, es), List.mem_cons_self _ _, e, he, rfl⟩
    · obtain ⟨q, hq, rfl⟩ := List.mem_map.mp hf
      constructor
      · exact Or.inr hq
      · exact Or.inl ⟨mkCopy orig b c k, by simp [copiesFrom], rfl⟩
    · obtain ⟨hsrc, hdst⟩ := ih (b + 1) (c + 1) f hf
      constructor
      · rcases hsrc with ⟨x, hx, hxe⟩ | hsrc
        · exact Or.inl ⟨x, by simp [copiesFrom, hx], hxe⟩
        · exact Or.inr hsrc
      · rcases hdst with ⟨x, hx, hxe⟩ | ⟨q, hq, e, he, hde⟩
        · exact Or.inl ⟨x, by simp [copiesFrom, hx], hxe⟩
        · exact Or.inr ⟨q, List.mem_cons_of_mem _ hq, e, he, hde⟩

theorem copiesFrom_out_bucket (orig : Node) (inN : List Nat) :
    ∀ (gs : List (String × List Edge)) (b c : Nat), (∀ q ∈ inN, q < b) →
      ∀ x ∈ (copiesFrom orig inN b c gs).1, ∀ f ∈ (copiesFrom orig inN b c gs).2,
        f.src = x.nid →
        ∃ k es, (k, es) ∈ gs ∧ x.device = some k ∧
          ∃ e ∈ es, f = { src := x.nid, srcOut := e.srcOut, dst := e.dst, dstIn := e.dstIn } := by
  intro gs
  induction gs with
  | nil => intro b c _ x hx; simp [copiesFrom] at hx
  | cons p rest ih =>
    intro b c hinN x hx f hf hsrc
    obtain ⟨k, es⟩ := p
    simp only [copiesFrom, List.mem_cons, List.append_assoc, List.mem_append] at hx hf
    rcases hx with rfl | hx
    · rcases hf with hf | hf | hf
      · obtain ⟨e, he, rfl⟩ := List.mem_map.mp hf
        exact ⟨k, es, List.mem_cons_self _ _, rfl, e, he, by rw [← hsrc]⟩
      · obtain ⟨q, hq, rfl⟩ := List.mem_map.mp hf
        have := hinN q hq
        simp only [mkCopy] at hsrc
        omega
      · rcases copiesFrom_edges_mem orig inN rest (b + 1) (c + 1) f hf with
          ⟨_, _, _, _, hb2, _, _, _⟩ | ⟨hq, _, _, _⟩
        · simp only [mkCopy] at hsrc
          omega
        · have := hinN f.src hq
          simp only [mkCopy] at hsrc
          omega
    · have hxb : b + 1 ≤ x.nid := (copiesFrom_fields orig inN rest (b + 1) (c + 1) x hx).2.2
      rcases hf with hf | hf | hf
      · obtain ⟨e, he, rfl⟩ := List.mem_map.mp hf
        simp only at hsrc
        omega
      · obtain ⟨q, hq, rfl⟩ := List.mem_map.mp hf
        have := hinN q hq
        simp only at hsrc
        omega
      · obtain ⟨k2, es2, hk2, hdev2, e2, he2, hfe2⟩ :=
          ih (b + 1) (c + 1) (fun q hq => Nat.lt_succ_of_lt (hinN q hq)) x hx f hf hsrc
        exact ⟨k2, es2, List.mem_cons_of_mem _ hk2, hdev2, e2, he2, hfe2⟩

theorem wf_edge_lt {g : Graph} (hWF : g.WF) {f : Edge} (hf : f ∈ g.edges) :
    f.src < g.nextId ∧ f.dst < g.nextId := by
  obtain ⟨_, hbound, hend, _⟩ := hWF
  obtain ⟨⟨x, hx, hxe⟩, ⟨y, hy, hye⟩⟩ := hend f hf
  exact ⟨hxe ▸ hbound x hx, hye ▸ hbound y hy⟩

theorem inN_lt {g : Graph} (hWF : g.WF) (i : Nat) :
    ∀ q ∈ g.inNodeIds i, q < g.nextId := by
  intro q hq
  obtain ⟨f, hf, rfl⟩ := List.mem_map.mp hq
  exact (wf_edge_lt hWF (List.mem_filter.mp hf).1).1

theorem getNode_self {g : Graph} (hnodup : (g.nodes.map Node.nid).Nodup)
    {x : Node} (hx : x ∈ g.nodes) : g.getNode x.nid = some x :=
  find?_nid_nodup g.nodes x hnodup hx

theorem getNode_replicate_old {g : Graph} {n : Node} {groups : List (String × List Edge)}
    (hnodup : (g.nodes.map Node.nid).Nodup)
    (hdst : ∀ p ∈ groups, ∀ e ∈ p.2, e.dst ≠ n.nid)
    (hself : ∀ q ∈ g.inNodeIds n.nid, q ≠ n.nid)
    (hn : n.nid < g.nextId)
    {x : Node} (hx : x ∈ g.nodes) (hxn : x.nid ≠ n.nid) :
    (replicateToEachDevice g n groups).getNode x.nid = some x := by
  rw [replicateToEachDevice_eq g n groups hdst hself hn]
  show (g.nodes.filter (fun y => y.nid != n.nid)
      ++ (copiesFrom n (g.inNodeIds n.nid) g.nextId g.nameCounter groups).1).find?
        (fun y => y.nid == x.nid) = some x
  rw [List.find?_append]
  have hmem : x ∈ g.nodes.filter (fun y => y.nid != n.nid) :=
    List.mem_filter.mpr ⟨hx, by simpa using hxn⟩
  have hsub : ((g.nodes.filter (fun y => y.nid != n.nid)).map Node.nid).Nodup :=
    List.Nodup.sublist (List.Sublist.map Node.nid (List.filter_sublist g.nodes)) hnodup
  rw [find?_nid_nodup _ x hsub hmem]
  rfl

theorem destNode_replicate_old {g : Graph} {n : Node} {groups : List (String × List Edge)}
    (hnodup : (g.nodes.map Node.nid).Nodup)
    (hdst : ∀ p ∈ groups, ∀ e ∈ p.2, e.dst ≠ n.nid)
    (hself : ∀ q ∈ g.inNodeIds n.nid, q ≠ n.nid)
    (hn : n.nid < g.nextId)
    {f : Edge} (hy : ∃ y ∈ g.nodes, y.nid = f.dst) (hfn : f.dst ≠ n.nid) :
    (replicateToEachDevice g n groups).destNode f = g.destNode f := by
  obtain ⟨y, hy1, hy2⟩ := hy
  have hyn : y.nid ≠ n.nid := by rw [hy2]; exact hfn
  have hg : g.getNode f.dst = some y := by
    rw [← hy2]; exact getNode_self hnodup hy1
  have hr : (replicateToEachDevice g n groups).getNode f.dst = some y := by
    rw [← hy2]; exact getNode_replicate_old hnodup hdst hself hn hy1 hyn
  simp [Graph.destNode, hg, hr]

theorem outEdges_replicate_notin {g : Graph} {n : Node} {groups : List (String × List Edge)}
    (hWF : g.WF)
    (hdst : ∀ p ∈ groups, ∀ e ∈ p.2, e.dst ≠ n.nid)
    (hself : ∀ q ∈ g.inNodeIds n.nid, q ≠ n.nid)
    (hn : n.nid < g.nextId)
    {x : Node} (hx : x ∈ g.nodes) (hxn : x.nid ≠ n.nid)
    (hnotin : x.nid ∉ g.inNodeIds n.nid) :
    (replicateToEachDevice g n groups).outEdges x = g.outEdges x := by
  have hxlt : x.nid < g.nextId := hWF.2.1 x hx
  rw [replicateToEachDevice_eq g n groups hdst hself hn]
  show (g.edges.filter (fun e => e.src != n.nid && e.dst != n.nid)
      ++ (copiesFrom n (g.inNodeIds n.nid) g.nextId g.nameCounter groups).2).filter
        (fun e => e.src == x.nid) = g.outEdges x
  rw [List.filter_append]
  have h2 : (copiesFrom n (g.inNodeIds n.nid) g.nextId g.nameCounter groups).2.filter
      (fun e => e.src == x.nid) = [] := by
    rw [List.filter_eq_nil_iff]
    intro f hf
    rcases copiesFrom_edges_mem n (g.inNodeIds n.nid) groups g.nextId g.nameCounter f hf with
      ⟨_, _, _, _, hb, _, _, _⟩ | ⟨hq, _, _, _⟩
    · simp only [beq_iff_eq]
      omega
    · simp only [beq_iff_eq]
      intro hsx
      exact hnotin (hsx ▸ hq)
  have h1 : (g.edges.filter (fun e => e.src != n.nid && e.dst != n.nid)).filter
      (fun e => e.src == x.nid) = g.edges.filter (fun e => e.src == x.nid) := by
    rw [List.filter_filter]
    refine List.filter_congr ?_
    intro e he
    cases hse : (e.src == x.nid) with
    | false => simp [hse]
    | true =>
      have hsx : e.src = x.nid := by simpa using hse
      have hdn : e.dst ≠ n.nid := by
        intro hdd
        refine hnotin ?_
        exact List.mem_map.mpr ⟨e, List.mem_filter.mpr ⟨he, by simpa using hdd⟩, hsx⟩
      have hs1 : (e.src != n.nid) = true := by rw [hsx]; simpa using hxn
      have hs2 : (e.dst != n.nid) = true := by simpa using hdn
      rw [hs1, hs2]
      rfl
  rw [h1, h2, List.append_nil]
  rfl

theorem ctrlOut_replicate_in {g : Graph} {n : Node} {groups : List (String × List Edge)}
    (hdst : ∀ p ∈ groups, ∀ e ∈ p.2, e.dst ≠ n.nid)
    (hself : ∀ q ∈ g.inNodeIds n.nid, q ≠ n.nid)
    (hn : n.nid < g.nextId) (hlen : 0 < groups.length)
    {x : Node} (hin : x.nid ∈ g.inNodeIds n.nid) :
    hasControlOut (replicateToEachDevice g n groups) x = true := by
  have hcopy : 0 < (copiesFrom n (g.inNodeIds n.nid) g.nextId g.nameCounter groups).1.length := by
    rw [copiesFrom_fst_length]; exact hlen
  obtain ⟨x0, hx0⟩ := List.exists_mem_of_length_pos hcopy
  have hedge := copiesFrom_ctrl_mem n (g.inNodeIds n.nid) groups g.nextId g.nameCounter x0 x.nid
    hx0 hin
  rw [replicateToEachDevice_eq g n groups hdst hself hn]
  simp only [hasControlOut, List.any_eq_true]
  refine ⟨{ src := x.nid, srcOut := -1, dst := x0.nid, dstIn := -1 }, ?_, rfl⟩
  show _ ∈ List.filter (fun e => Edge.src e == x.nid) _
  exact List.mem_filter.mpr ⟨List.mem_append.mpr (Or.inr hedge), by simp⟩

theorem groupEdges_destNode_congr {R : DeviceNameResolver} {g1 g2 : Graph} :
    ∀ (es : List Edge) (acc : List (String × List Edge)),
      (∀ e ∈ es, g1.destNode e = g2.destNode e) →
      groupEdges R g1 es acc = groupEdges R g2 es acc := by
  intro es
  induction es with
  | nil => intro acc _; rfl
  | cons e rest ih =>
    intro acc h
    simp only [groupEdges]
    rw [h e (List.mem_cons_self e rest)]
    cases getDestinationCpuDevice R (g2.destNode e) with
    | error er => rfl
    | ok dev => exact ih _ (fun f hf => h f (List.mem_cons_of_mem e hf))

theorem getSuccessorEdges_replicate_old {R : DeviceNameResolver} {g : Graph} {n : Node}
    {groups : List (String × List Edge)}
    (hWF : g.WF)
    (hdst : ∀ p ∈ groups, ∀ e ∈ p.2, e.dst ≠ n.nid)
    (hself : ∀ q ∈ g.inNodeIds n.nid, q ≠ n.nid)
    (hn : n.nid < g.nextId)
    {x : Node} (hx : x ∈ g.nodes) (hxn : x.nid ≠ n.nid)
    (hnotin : x.nid ∉ g.inNodeIds n.nid) :
    getSuccessorEdges R (replicateToEachDevice g n groups) x = getSuccessorEdges R g x := by
  unfold getSuccessorEdges
  rw [outEdges_replicate_notin hWF hdst hself hn hx hxn hnotin]
  refine groupEdges_destNode_congr (g.outEdges x) [] ?_
  intro e he
  have heg : e ∈ g.edges := (List.mem_filter.mp he).1
  have hes : e.src = x.nid := by simpa using (List.mem_filter.mp he).2
  have hdn : e.dst ≠ n.nid := by
    intro hdd
    refine hnotin ?_
    exact List.mem_map.mpr ⟨e, List.mem_filter.mpr ⟨heg, by simpa using hdd⟩, hes⟩
  exact destNode_replicate_old hWF.1 hdst hself hn (hWF.2.2.1 e heg).2 hdn

theorem groupEdges_single_key {R : DeviceNameResolver} {g : Graph} {k : String} :
    ∀ (es : List Edge) (acc : List (String × List Edge)),
      (∀ e ∈ es, getDestinationCpuDevice R (g.destNode e) = .ok k) →
      (acc = [] ∨ ∃ es0, acc = [(k, es0)]) →
      ∃ out, groupEdges R g es acc = .ok out ∧ (out = [] ∨ ∃ es1, out = [(k, es1)]) := by
  intro es
  induction es with
  | nil => intro acc _ hacc; exact ⟨acc, rfl, hacc⟩
  | cons e rest ih =>
    intro acc h hacc
    have he := h e (List.mem_cons_self e rest)
    have hstep : groupEdges R g (e :: rest) acc = groupEdges R g rest (btreeInsert acc k e) := by
      simp only [groupEdges, he]
    rw [hstep]
    refine ih (btreeInsert acc k e) (fun f hf => h f (List.mem_cons_of_mem e hf)) ?_
    rcases hacc with rfl | ⟨es0, rfl⟩
    · exact Or.inr ⟨[e], rfl⟩
    · refine Or.inr ⟨es0 ++ [e], ?_⟩
      simp [btreeInsert, strLt_irrefl]

theorem nodup_middle_ne {P Q : List Node} {u x : Node}
    (h : ((P ++ u :: Q).map Node.nid).Nodup) (hx : x ∈ P ∨ x ∈ Q) : x.nid ≠ u.nid := by
  rw [List.map_append, List.nodup_append] at h
  obtain ⟨h1, h2, h3⟩ := h
  rcases hx with hx | hx
  · intro heq
    refine h3 (List.mem_map_of_mem Node.nid hx) ?_
    rw [List.map_cons, heq]
    exact List.mem_cons_self u.nid _
  · intro heq
    rw [List.map_cons, List.nodup_cons] at h2
    exact h2.1 (heq ▸ List.mem_map_of_mem Node.nid hx)

theorem filter_middle {P Q : List Node} {u : Node}
    (h : ((P ++ u :: Q).map Node.nid).Nodup) :
    (P ++ u :: Q).filter (fun x => x.nid != u.nid) = P ++ Q := by
  have h1 : P.filter (fun x => x.nid != u.nid) = P :=
    List.filter_eq_self.mpr (fun x hx => by simpa using nodup_middle_ne h (Or.inl hx))
  have h2 : Q.filter (fun x => x.nid != u.nid) = Q :=
    List.filter_eq_self.mpr (fun x hx => by simpa using nodup_middle_ne h (Or.inr hx))
  simp [List.filter_append, List.filter_cons, h1, h2]

theorem countP_and_disjoint_le (s u v : Edge → Bool)
    (huv : ∀ a : Edge, ¬(u a = true ∧ v a = true)) :
    ∀ l : List Edge,
      List.countP (fun a => s a && u a) l + List.countP (fun a => s a && v a) l ≤
        List.countP s l := by
  intro l
  induction l with
  | nil => simp
  | cons a rest ih =>
    cases hu : u a with
    | true =>
      cases hv : v a with
      | true => exact absurd ⟨hu, hv⟩ (huv a)
      | false =>
        cases hs : s a <;> simp [List.countP_cons, hs, hu, hv] <;> omega
    | false =>
      cases hv : v a <;> cases hs : s a <;> simp [List.countP_cons, hs, hu, hv] <;> omega

theorem wf_preserved {R : DeviceNameResolver} {g : Graph} {n : Node}
    {groups : List (String × List Edge)}
    (hWF : g.WF) (hget : g.getNode n.nid = some n) (hc : n.isConstant = true)
    (hctl : hasControlOut g n = false)
    (hgr : getSuccessorEdges R g n = .ok groups) :
    (replicateToEachDevice g n groups).WF := by
  obtain ⟨hallctl, hbuck, hself, hn⟩ := eligible_aux hWF hget hc hctl hgr
  have hdst : ∀ p ∈ groups, ∀ e ∈ p.2, e.dst ≠ n.nid := fun p hp e he => (hbuck p hp e he).1
  have hedgelt : ∀ f ∈ g.edges, f.src < g.nextId ∧ f.dst < g.nextId :=
    fun f hf => wf_edge_lt hWF hf
  obtain ⟨hnodup, hbound, hend, hslot, huniq, hnodata⟩ := hWF
  rw [replicateToEachDevice_eq g n groups hdst hself hn]
  refine ⟨?_, ?_, ?_, ?_, ?_, ?_⟩
  · show ((g.nodes.filter (fun x => x.nid != n.nid)
        ++ (copiesFrom n (g.inNodeIds n.nid) g.nextId g.nameCounter groups).1).map Node.nid).Nodup
    rw [List.map_append, List.nodup_append]
    refine ⟨?_, ?_, ?_⟩
    · exact List.Nodup.sublist (List.Sublist.map Node.nid (List.filter_sublist g.nodes)) hnodup
    · rw [copiesFrom_nid_map]
      exact List.Nodup.map (fun a b hab => by omega) (List.nodup_range groups.length)
    · intro a ha hb
      obtain ⟨x, hx, rfl⟩ := List.mem_map.mp ha
      obtain ⟨y, hy, hxy⟩ := List.mem_map.mp hb
      have h1 : x.nid < g.nextId := hbound x (List.mem_filter.mp hx).1
      have h2 : g.nextId ≤ y.nid := copiesFrom_nid_ge n _ groups _ _ y hy
      omega
  · intro x hx
    show x.nid < g.nextId + groups.length
    rcases List.mem_append.mp hx with hx | hx
    · have := hbound x (List.mem_filter.mp hx).1
      omega
    · have h2 := copiesFrom_nid_lt n (g.inNodeIds n.nid) groups g.nextId g.nameCounter x hx
      omega
  · intro f hf
    have hmemA : ∀ z ∈ g.nodes, z.nid ≠ n.nid →
        z ∈ g.nodes.filter (fun x => x.nid != n.nid) :=
      fun z hz hzn => List.mem_filter.mpr ⟨hz, by simpa using hzn⟩
    rcases List.mem_append.mp hf with hf | hf
    · obtain ⟨hfg, hkeep⟩ := List.mem_filter.mp hf
      have hk : f.src ≠ n.nid ∧ f.dst ≠ n.nid := by simpa using hkeep
      obtain ⟨⟨zx, hzx, hzxe⟩, ⟨zy, hzy, hzye⟩⟩ := hend f hfg
      constructor
      · exact ⟨zx, List.mem_append.mpr (Or.inl (hmemA zx hzx (by rw [hzxe]; exact hk.1))), hzxe⟩
      · exact ⟨zy, List.mem_append.mpr (Or.inl (hmemA zy hzy (by rw [hzye]; exact hk.2))), hzye⟩
    · obtain ⟨hsrc, hdstc⟩ := copiesFrom_edge_endpoints n (g.inNodeIds n.nid) groups g.nextId
        g.nameCounter f hf
      constructor
      · rcases hsrc with ⟨x, hx, hxe⟩ | hsrc
        · exact ⟨x, List.mem_append.mpr (Or.inr hx), hxe⟩
        · obtain ⟨e2, he2, he2s⟩ := List.mem_map.mp hsrc
          have he2g : e2 ∈ g.edges := (List.mem_filter.mp he2).1
          obtain ⟨⟨zx, hzx, hzxe⟩, _⟩ := hend e2 he2g
          refine ⟨zx, List.mem_append.mpr (Or.inl (hmemA zx hzx ?_)), ?_⟩
          · rw [hzxe, he2s]
            exact hself f.src hsrc
          · rw [hzxe]
            exact he2s
      · rcases hdstc with ⟨x, hx, hxe⟩ | ⟨p, hp, e2, he2, hde⟩
        · exact ⟨x, List.mem_append.mpr (Or.inr hx), hxe⟩
        · have he2o : e2 ∈ g.outEdges n := (hbuck p hp e2 he2).2.2
          have he2g : e2 ∈ g.edges := (List.mem_filter.mp he2o).1
          obtain ⟨_, ⟨zy, hzy, hzye⟩⟩ := hend e2 he2g
          refine ⟨zy, List.mem_append.mpr (Or.inl (hmemA zy hzy ?_)), ?_⟩
          · rw [hzye]
            exact hdst p hp e2 he2
          · rw [hzye]
            exact hde.symm
  · intro f hf
    rcases List.mem_append.mp hf with hf | hf
    · exact hslot f (List.mem_filter.mp hf).1
    · rcases copiesFrom_edges_mem n (g.inNodeIds n.nid) groups g.nextId g.nameCounter f hf with
        ⟨p, hp, e2, he2, _, h1, _, h3⟩ | ⟨_, h1, _, h3⟩
      · have he2o : e2 ∈ g.outEdges n := (hbuck p hp e2 he2).2.2
        have hne : e2.isControlEdge = false := (hbuck p hp e2 he2).2.1
        rcases hslot e2 (List.mem_filter.mp he2o).1 with ⟨hs1, hs2⟩ | ⟨hs1, hs2⟩
        · exfalso
          simp [Edge.isControlEdge, hs1] at hne
        · right
          rw [h1, h3]
          exact ⟨hs1, hs2⟩
      · left
        exact ⟨h1, h3⟩
  · intro f hf hdge
    show (List.filter (fun f2 => f2.dst == f.dst && f2.dstIn == f.dstIn)
        (g.edges.filter (fun e => e.src != n.nid && e.dst != n.nid)
          ++ (copiesFrom n (g.inNodeIds n.nid) g.nextId g.nameCounter groups).2)).length ≤ 1
    rw [← List.countP_eq_length_filter]
    have hex : ∃ e0 ∈ g.edges, e0.dst = f.dst ∧ e0.dstIn = f.dstIn := by
      rcases List.mem_append.mp hf with hf | hf
      · exact ⟨f, (List.mem_filter.mp hf).1, rfl, rfl⟩
      · rcases copiesFrom_edges_mem n (g.inNodeIds n.nid) groups g.nextId g.nameCounter f hf with
          ⟨p, hp, e2, he2, _, _, h2, h3⟩ | ⟨_, _, _, h4⟩
        · exact ⟨e2, (List.mem_filter.mp ((hbuck p hp e2 he2).2.2)).1, h2.symm, h3.symm⟩
        · exfalso
          rw [h4] at hdge
          omega
    obtain ⟨e0, he0g, he0d, he0i⟩ := hex
    have hcle : List.countP (fun f2 => f2.dst == f.dst && f2.dstIn == f.dstIn) g.edges ≤ 1 := by
      have hu := huniq e0 he0g (by rw [he0i]; exact hdge)
      rw [← List.countP_eq_length_filter] at hu
      calc List.countP (fun f2 => f2.dst == f.dst && f2.dstIn == f.dstIn) g.edges
          = List.countP (fun f2 => f2.dst == e0.dst && f2.dstIn == e0.dstIn) g.edges := by
            rw [he0d, he0i]
        _ ≤ 1 := hu
    rw [List.countP_append]
    have hA : List.countP (fun f2 => f2.dst == f.dst && f2.dstIn == f.dstIn)
        (g.edges.filter (fun e => e.src != n.nid && e.dst != n.nid)) =
        List.countP (fun f2 => (f2.dst == f.dst && f2.dstIn == f.dstIn)
          && (f2.src != n.nid && f2.dst != n.nid)) g.edges := List.countP_filter _ _ _
    have hK : List.countP (fun f2 => f2.dst == f.dst && f2.dstIn == f.dstIn)
        (copiesFrom n (g.inNodeIds n.nid) g.nextId g.nameCounter groups).2 =
        List.countP (fun f2 => (f2.dst == f.dst && f2.dstIn == f.dstIn)
          && f2.src == n.nid) g.edges := by
      rw [copiesFrom_dest_countP n (g.inNodeIds n.nid) f.dst f.dstIn hdge groups g.nextId
        g.nameCounter]
      have hperm := getSuccessorEdges_flatten_perm hgr
      rw [hperm.countP_eq]
      show List.countP _ (g.edges.filter (fun e => e.src == n.nid)) = _
      rw [List.countP_filter]
    rw [hA, hK]
    have hdisj : ∀ a : Edge,
        ¬((a.src != n.nid && a.dst != n.nid) = true ∧ (a.src == n.nid) = true) := by
      intro a h
      obtain ⟨h1, h2⟩ := h
      simp only [Bool.and_eq_true, bne_iff_ne, ne_eq, beq_iff_eq] at h1 h2
      exact h1.1 h2
    exact le_trans (countP_and_disjoint_le
      (fun f2 => f2.dst == f.dst && f2.dstIn == f.dstIn)
      (fun f2 => f2.src != n.nid && f2.dst != n.nid)
      (fun f2 => f2.src == n.nid) hdisj g.edges) hcle
  · intro f hf hfc x hx hxd
    rcases List.mem_append.mp hf with hfB | hfK
    · have hfg : f ∈ g.edges := (List.mem_filter.mp hfB).1
      rcases List.mem_append.mp hx with hxA | hxK
      · exact hnodata f hfg hfc x (List.mem_filter.mp hxA).1 hxd
      · exfalso
        have hge := copiesFrom_nid_ge n (g.inNodeIds n.nid) groups g.nextId g.nameCounter x hxK
        have h2 := (hedgelt f hfg).2
        omega
    · rcases copiesFrom_edges_mem n (g.inNodeIds n.nid) groups g.nextId g.nameCounter f hfK with
        ⟨p, hp, e2, he2, _, _, h2, _⟩ | ⟨_, h1, _, _⟩
      · have he2o : e2 ∈ g.outEdges n := (hbuck p hp e2 he2).2.2
        have he2c : e2.isControlEdge = false := (hbuck p hp e2 he2).2.1
        have he2g : e2 ∈ g.edges := (List.mem_filter.mp he2o).1
        rcases List.mem_append.mp hx with hxA | hxK
        · exact hnodata e2 he2g he2c x (List.mem_filter.mp hxA).1 (by rw [hxd, h2])
        · exfalso
          have hge := copiesFrom_nid_ge n (g.inNodeIds n.nid) groups g.nextId g.nameCounter x hxK
          have h3 := (hedgelt e2 he2g).2
          omega
      · exfalso
        simp [Edge.isControlEdge, h1] at hfc

theorem stableSkip_preserved {R : DeviceNameResolver} {g : Graph} {n : Node}
    {groups : List (String × List Edge)}
    (hWF : g.WF) (hget : g.getNode n.nid = some n) (hc : n.isConstant = true)
    (hctl : hasControlOut g n = false)
    (hgr : getSuccessorEdges R g n = .ok groups) (hlen : 0 < groups.length)
    {x : Node} (hx : x ∈ g.nodes) (hxn : x.nid ≠ n.nid)
    (hst : StableSkip R g x) :
    StableSkip R (replicateToEachDevice g n groups) x := by
  obtain ⟨hallctl, hbuck, hself, hn⟩ := eligible_aux hWF hget hc hctl hgr
  have hdst : ∀ p ∈ groups, ∀ e ∈ p.2, e.dst ≠ n.nid := fun p hp e he => (hbuck p hp e he).1
  by_cases hin : x.nid ∈ g.inNodeIds n.nid
  · exact Or.inr (Or.inr (Or.inl (ctrlOut_replicate_in hdst hself hn hlen hin)))
  · have hout := outEdges_replicate_notin hWF hdst hself hn hx hxn hin
    rcases hst with h | h | h | ⟨proto, ne, hv, hb, hd⟩
    · exact Or.inl h
    · exact Or.inr (Or.inl (by rw [hout]; exact h))
    · refine Or.inr (Or.inr (Or.inl ?_))
      show ((replicateToEachDevice g n groups).outEdges x).any (fun e => e.isControlEdge) = true
      rw [hout]
      exact h
    · refine Or.inr (Or.inr (Or.inr ⟨proto, ne, hv, hb, ?_⟩))
      rcases hd with h | h | h | ⟨gs, hgs, hle⟩
      · exact Or.inl h
      · exact Or.inr (Or.inl h)
      · exact Or.inr (Or.inr (Or.inl h))
      · refine Or.inr (Or.inr (Or.inr ⟨gs, ?_, hle⟩))
        rw [getSuccessorEdges_replicate_old hWF hdst hself hn hx hxn hin]
        exact hgs

theorem copies_stableSkip {R : DeviceNameResolver} {g : Graph} {n : Node}
    {groups : List (String × List Edge)} {proto : TensorShapeProto} {ne : Int}
    (hWF : g.WF) (hget : g.getNode n.nid = some n) (hc : n.isConstant = true)
    (hctl : hasControlOut g n = false)
    (hv : n.value = some proto) (hb : buildShapeNumElements proto = some ne)
    (hgr : getSuccessorEdges R g n = .ok groups) :
    ∀ x ∈ (copiesFrom n (g.inNodeIds n.nid) g.nextId g.nameCounter groups).1,
      StableSkip R (replicateToEachDevice g n groups) x := by
  obtain ⟨hallctl, hbuck, hself, hn⟩ := eligible_aux hWF hget hc hctl hgr
  have hdst : ∀ p ∈ groups, ∀ e ∈ p.2, e.dst ≠ n.nid := fun p hp e he => (hbuck p hp e he).1
  have hinN := inN_lt hWF n.nid
  have hedgelt : ∀ f ∈ g.edges, f.src < g.nextId ∧ f.dst < g.nextId :=
    fun f hf => wf_edge_lt hWF hf
  intro x hx
  obtain ⟨hxv, hxc, hxge⟩ := copiesFrom_fields n (g.inNodeIds n.nid) groups g.nextId
    g.nameCounter x hx
  have hdev : ∃ k0, x.device = some k0 := by
    have hmm : x.device ∈ ((copiesFrom n (g.inNodeIds n.nid) g.nextId g.nameCounter
        groups).1).map (fun y => y.device) := List.mem_map_of_mem _ hx
    rw [copiesFrom_device_map] at hmm
    obtain ⟨p, _, hp2⟩ := List.mem_map.mp hmm
    exact ⟨p.1, hp2.symm⟩
  obtain ⟨k0, hk0⟩ := hdev
  refine Or.inr (Or.inr (Or.inr ⟨proto, ne, by rw [hxv, hv], hb,
    Or.inr (Or.inr (Or.inr ?_))⟩))
  have hres : ∀ f ∈ (replicateToEachDevice g n groups).outEdges x,
      getDestinationCpuDevice R ((replicateToEachDevice g n groups).destNode f) = .ok k0 := by
    intro f hf
    have hf2 : f ∈ (replicateToEachDevice g n groups).edges ∧ f.src = x.nid := by
      have hmf := List.mem_filter.mp hf
      exact ⟨hmf.1, by simpa using hmf.2⟩
    have hfK : f ∈ (copiesFrom n (g.inNodeIds n.nid) g.nextId g.nameCounter groups).2 := by
      have hmem := hf2.1
      rw [replicateToEachDevice_eq g n groups hdst hself hn] at hmem
      rcases List.mem_append.mp hmem with hmem | hmem
      · exfalso
        have hfg : f ∈ g.edges := (List.mem_filter.mp hmem).1
        have h1 := (hedgelt f hfg).1
        have h2 := hf2.2
        omega
      · exact hmem
    obtain ⟨k, es, hkgs, hdev2, e2, he2, hfe⟩ := copiesFrom_out_bucket n (g.inNodeIds n.nid)
      groups g.nextId g.nameCounter hinN x hx f hfK hf2.2
    have hkk : k = k0 := by
      rw [hk0] at hdev2
      exact (Option.some.inj hdev2).symm
    have hre2 : getDestinationCpuDevice R (g.destNode e2) = .ok k :=
      getSuccessorEdges_keys hgr (k, es) hkgs e2 he2
    have he2b := hbuck (k, es) hkgs e2 he2
    have he2g : e2 ∈ g.edges := (List.mem_filter.mp he2b.2.2).1
    have hfd : f.dst = e2.dst := by rw [hfe]
    have hdn : (replicateToEachDevice g n groups).destNode f = g.destNode f := by
      refine destNode_replicate_old hWF.1 hdst hself hn ?_ ?_
      · rw [hfd]
        exact (hWF.2.2.1 e2 he2g).2
      · rw [hfd]
        exact he2b.1
    have hsame : g.destNode f = g.destNode e2 := by
      unfold Graph.destNode Graph.getNode
      rw [hfd]
    rw [hdn, hsame, ← hkk]
    exact hre2
  obtain ⟨out, hout, hshape⟩ := groupEdges_single_key
    ((replicateToEachDevice g n groups).outEdges x) [] hres (Or.inl rfl)
  refine ⟨out, hout, ?_⟩
  rcases hshape with rfl | ⟨es1, rfl⟩ <;> simp

theorem stableSkip_processNode {R : DeviceNameResolver} {g : Graph} {x : Node}
    (hget : g.getNode x.nid = some x) (hst : StableSkip R g x) (a b : Int) :
    ∃ a2 b2, processNode R ⟨g, a, b⟩ x.nid = .ok ⟨g, a2, b2⟩ := by
  rcases processNode_full R g x.nid with ⟨hok, _, _⟩ | ⟨n, v, _, _, _, _, hok⟩ |
    ⟨n, proto, ne, groups, hgn, _, hc2, hdeg2, hctl2, hv2, hb2, hle2, hdev2, hcpu2, hgr2,
      hlen2, _⟩ |
    ⟨e, _, _, n, hgn, hc2, hdeg2, hctl2, hsub⟩
  · exact ⟨a, b, hok a b⟩
  · exact ⟨min a v, max b v, hok a b⟩
  · exfalso
    have hnx : n = x := by rw [hget] at hgn; exact (Option.some.inj hgn).symm
    subst hnx
    rcases hst with h | h | h | ⟨proto2, ne2, hv, hb, hd⟩
    · rw [hc2] at h; cases h
    · omega
    · rw [hctl2] at h; cases h
    · rw [hv2] at hv
      obtain rfl : proto = proto2 := Option.some.inj hv
      rw [hb2] at hb
      obtain rfl : ne = ne2 := Option.some.inj hb
      rcases hd with h | h | h | ⟨gs, hgs, hle⟩
      · omega
      · rw [h] at hdev2
        simp at hdev2
      · rw [hcpu2] at h
        cases h
      · rw [hgr2] at hgs
        obtain rfl : groups = gs := Except.ok.inj hgs
        omega
  · exfalso
    have hnx : n = x := by rw [hget] at hgn; exact (Option.some.inj hgn).symm
    subst hnx
    rcases hst with h | h | h | ⟨proto2, ne2, hv, hb, hd⟩
    · rw [hc2] at h; cases h
    · omega
    · rw [hctl2] at h; cases h
    · rcases hsub with ⟨hvn, _⟩ | ⟨proto3, hv3, hb3, _⟩ |
        ⟨proto3, ne3, er, hv3, hb3, hle3, hdev3, hcpu3, hgr3, _⟩
      · rw [hvn] at hv; cases hv
      · rw [hv3] at hv
        obtain rfl : proto3 = proto2 := Option.some.inj hv
        rw [hb3] at hb
        cases hb
      · rw [hv3] at hv
        obtain rfl : proto3 = proto2 := Option.some.inj hv
        rw [hb3] at hb
        obtain rfl : ne3 = ne2 := Option.some.inj hb
        rcases hd with h | h | h | ⟨gs, hgs, hle⟩
        · omega
        · rw [h] at hdev3
          simp at hdev3
        · rw [hcpu3] at h
          cases h
        · rw [hgr3] at hgs
          cases hgs

theorem runNodes_skips (R : DeviceNameResolver) (g : Graph) :
    ∀ (ids : List Nat) (a b : Int),
      (∀ i ∈ ids, ∀ a1 b1 : Int, ∃ a2 b2, processNode R ⟨g, a1, b1⟩ i = .ok ⟨g, a2, b2⟩) →
      ∃ a2 b2, runNodes R ⟨g, a, b⟩ ids = (⟨g, a2, b2⟩, none) := by
  intro ids
  induction ids with
  | nil => intro a b _; exact ⟨a, b, rfl⟩
  | cons i rest ih =>
    intro a b h
    obtain ⟨a2, b2, hp⟩ := h i (List.mem_cons_self i rest) a b
    have hstep : runNodes R ⟨g, a, b⟩ (i :: rest) = runNodes R ⟨g, a2, b2⟩ rest := by
      simp only [runNodes, hp]
    rw [hstep]
    exact ih a2 b2 (fun j hj => h j (List.mem_cons_of_mem i hj))

theorem runNodes_stable (R : DeviceNameResolver) :
    ∀ (U : List Node) (s : PassState) (P C : List Node),
      s.graph.nodes = P ++ U ++ C →
      s.graph.WF →
      (∀ x ∈ P, StableSkip R s.graph x) →
      (∀ x ∈ C, StableSkip R s.graph x) →
      (runNodes R s (U.map (fun x => x.nid))).1.graph.WF
      ∧ ((runNodes R s (U.map (fun x => x.nid))).2 = none →
          ∀ x ∈ (runNodes R s (U.map (fun x => x.nid))).1.graph.nodes,
            StableSkip R (runNodes R s (U.map (fun x => x.nid))).1.graph x)
      ∧ ∀ e, (runNodes R s (U.map (fun x => x.nid))).2 = some e →
          ∃ P2 u rest2,
            (runNodes R s (U.map (fun x => x.nid))).1.graph.nodes = P2 ++ u :: rest2
            ∧ (∀ x ∈ P2, StableSkip R (runNodes R s (U.map (fun x => x.nid))).1.graph x)
            ∧ ∀ a2 b2 : Int,
                processNode R ⟨(runNodes R s (U.map (fun x => x.nid))).1.graph, a2, b2⟩ u.nid
                  = .error e := by
  intro U
  induction U with
  | nil =>
    intro s P C hnodes hWF hP hC
    have hrn : runNodes R s (List.map (fun x => x.nid) ([] : List Node)) = (s, none) := rfl
    rw [hrn]
    refine ⟨hWF, ?_, ?_⟩
    · intro _ x hx
      have hx2 : x ∈ s.graph.nodes := hx
      rw [hnodes] at hx2
      simp only [List.append_nil, List.mem_append] at hx2
      rcases hx2 with hx2 | hx2
      · exact hP x hx2
      · exact hC x hx2
    · intro e he
      simp at he
  | cons u U2 ih =>
    intro s P C hnodes hWF hP hC
    have hnodes2 : s.graph.nodes = P ++ u :: (U2 ++ C) := by
      rw [hnodes]
      simp
    have humem : u ∈ s.graph.nodes := by
      rw [hnodes2]
      exact List.mem_append.mpr (Or.inr (List.mem_cons_self u _))
    have hget : s.graph.getNode u.nid = some u := getNode_self hWF.1 humem
    have hne : ∀ x, x ∈ P ∨ x ∈ U2 ++ C → x.nid ≠ u.nid := by
      intro x hx
      refine nodup_middle_ne ?_ hx
      rw [← hnodes2]
      exact hWF.1
    rw [List.map_cons]
    rcases processNode_full R s.graph u.nid with ⟨hok, _, hsk⟩ | ⟨n, v, hgn, _, _, hstab, hok⟩ |
      ⟨n, proto, ne, groups, hgn, _, hc2, hdeg2, hctl2, hv2, hb2, hle2, hdev2, hcpu2, hgr2,
        hlen2, hok⟩ |
      ⟨e, _, herr, hrest⟩
    · have hust : StableSkip R s.graph u := by
        rcases hsk with hnone | ⟨n, hgn, hst⟩
        · rw [hget] at hnone
          cases hnone
        · rw [hget] at hgn
          obtain rfl : u = n := Option.some.inj hgn
          exact hst
      have hstep : runNodes R s (u.nid :: U2.map (fun x => x.nid)) =
          runNodes R s (U2.map (fun x => x.nid)) := by
        have h1 : processNode R s u.nid = .ok s := hok s.minSkipped s.maxSkipped
        simp only [runNodes, h1]
      rw [hstep]
      refine ih s (P ++ [u]) C ?_ hWF ?_ hC
      · rw [hnodes]
        simp
      · intro x hx
        rcases List.mem_append.mp hx with hx | hx
        · exact hP x hx
        · rw [List.mem_singleton] at hx
          rw [hx]
          exact hust
    · have hstab2 : StableSkip R s.graph u := by
        rw [hget] at hgn
        obtain rfl : u = n := Option.some.inj hgn
        exact hstab
      have hstep : runNodes R s (u.nid :: U2.map (fun x => x.nid)) =
          runNodes R (⟨s.graph, min s.minSkipped v, max s.maxSkipped v⟩ : PassState)
            (U2.map (fun x => x.nid)) := by
        have h1 : processNode R s u.nid =
            .ok ⟨s.graph, min s.minSkipped v, max s.maxSkipped v⟩ :=
          hok s.minSkipped s.maxSkipped
        simp only [runNodes, h1]
      rw [hstep]
      refine ih ⟨s.graph, min s.minSkipped v, max s.maxSkipped v⟩ (P ++ [u]) C ?_ hWF ?_ hC
      · show s.graph.nodes = (P ++ [u]) ++ U2 ++ C
        rw [hnodes]
        simp
      · intro x hx
        rcases List.mem_append.mp hx with hx | hx
        · exact hP x hx
        · rw [List.mem_singleton] at hx
          rw [hx]
          exact hstab2
    · rw [hget] at hgn
      obtain rfl : u = n := Option.some.inj hgn
      obtain ⟨hallctl, hbuck, hself, hnlt⟩ := eligible_aux hWF hget hc2 hctl2 hgr2
      have hdst : ∀ p ∈ groups, ∀ e ∈ p.2, e.dst ≠ u.nid :=
        fun p hp e he => (hbuck p hp e he).1
      have hwf2 : (replicateToEachDevice s.graph u groups).WF :=
        wf_preserved hWF hget hc2 hctl2 hgr2
      have hnodes3 : (replicateToEachDevice s.graph u groups).nodes =
          P ++ U2 ++ (C ++ (copiesFrom u (s.graph.inNodeIds u.nid) s.graph.nextId
            s.graph.nameCounter groups).1) := by
        rw [replicateToEachDevice_eq s.graph u groups hdst hself hnlt]
        show (s.graph.nodes.filter (fun x => x.nid != u.nid)) ++ _ = _
        rw [hnodes2, filter_middle (by rw [← hnodes2]; exact hWF.1)]
        simp [List.append_assoc]
      have hstab' : ∀ x, x ∈ P ∨ x ∈ C →
          StableSkip R (replicateToEachDevice s.graph u groups) x := by
        intro x hx
        have hxg : x ∈ s.graph.nodes := by
          rw [hnodes2]
          rcases hx with hx | hx
          · exact List.mem_append.mpr (Or.inl hx)
          · exact List.mem_append.mpr (Or.inr (List.mem_cons_of_mem _
              (List.mem_append.mpr (Or.inr hx))))
        have hxne : x.nid ≠ u.nid := by
          refine hne x ?_
          rcases hx with hx | hx
          · exact Or.inl hx
          · exact Or.inr (List.mem_append.mpr (Or.inr hx))
        have hst : StableSkip R s.graph x := by
          rcases hx with hx | hx
          · exact hP x hx
          · exact hC x hx
        exact stableSkip_preserved hWF hget hc2 hctl2 hgr2 (by omega) hxg hxne hst
      have hcopy := copies_stableSkip hWF hget hc2 hctl2 hv2 hb2 hgr2
      have hstep : runNodes R s (u.nid :: U2.map (fun x => x.nid)) =
          runNodes R (⟨replicateToEachDevice s.graph u groups, s.minSkipped, s.maxSkipped⟩ :
            PassState) (U2.map (fun x => x.nid)) := by
        have h1 : processNode R s u.nid =
            .ok ⟨replicateToEachDevice s.graph u groups, s.minSkipped, s.maxSkipped⟩ :=
          hok s.minSkipped s.maxSkipped
        simp only [runNodes, h1]
      rw [hstep]
      refine ih ⟨replicateToEachDevice s.graph u groups, s.minSkipped, s.maxSkipped⟩ P
        (C ++ (copiesFrom u (s.graph.inNodeIds u.nid) s.graph.nextId s.graph.nameCounter
          groups).1) hnodes3 hwf2 ?_ ?_
      · intro x hx
        exact hstab' x (Or.inl hx)
      · intro x hx
        rcases List.mem_append.mp hx with hx | hx
        · exact hstab' x (Or.inr hx)
        · exact hcopy x hx
    · have hstep : runNodes R s (u.nid :: U2.map (fun x => x.nid)) = (s, some e) := by
        have h1 : processNode R s u.nid = .error e := herr s.minSkipped s.maxSkipped
        simp only [runNodes, h1]
      rw [hstep]
      refine ⟨hWF, ?_, ?_⟩
      · intro hcon
        simp at hcon
      · intro e2 he2
        have he3 : some e = some e2 := he2
        obtain rfl : e = e2 := Option.some.inj he3
        refine ⟨P, u, U2 ++ C, hnodes2, hP, ?_⟩
        intro a2 b2
        exact herr a2 b2

theorem runPass_eq_of_runNodes_none {R : DeviceNameResolver} {g : Graph} {s2 : PassState}
    (h : runNodes R (initialState g) (g.nodes.map (fun x => x.nid)) = (s2, none)) :
    runPass R g = ⟨s2.graph,
      if s2.minSkipped != int64Max then some (s2.minSkipped, s2.maxSkipped) else none,
      none⟩ := by
  unfold runPass
  rw [h]

theorem runPass_eq_of_runNodes_some {R : DeviceNameResolver} {g : Graph} {s2 : PassState}
    {e : Err}
    (h : runNodes R (initialState g) (g.nodes.map (fun x => x.nid)) = (s2, some e)) :
    runPass R g = ⟨s2.graph, none, some e⟩ := by
  unfold runPass
  rw [h]

theorem runPass_of_all_stable {R : DeviceNameResolver} {g : Graph}
    (hWF : g.WF) (hst : ∀ x ∈ g.nodes, StableSkip R g x) :
    (runPass R g).graph = g ∧ (runPass R g).err = none := by
  have hstep : ∀ i ∈ g.nodes.map (fun x => x.nid), ∀ a1 b1 : Int,
      ∃ a2 b2, processNode R ⟨g, a1, b1⟩ i = .ok ⟨g, a2, b2⟩ := by
    intro i hi a1 b1
    obtain ⟨x, hx, rfl⟩ := List.mem_map.mp hi
    exact stableSkip_processNode (getNode_self hWF.1 hx) (hst x hx) a1 b1
  obtain ⟨a2, b2, hrun⟩ := runNodes_skips R g (g.nodes.map (fun x => x.nid)) int64Max
    int64Min hstep
  have hrun2 : runNodes R (initialState g) (g.nodes.map (fun x => x.nid)) =
      ((⟨g, a2, b2⟩ : PassState), none) := hrun
  rw [runPass_eq_of_runNodes_none hrun2]
  exact ⟨rfl, rfl⟩

theorem runPass_of_error_prefix {R : DeviceNameResolver} {g : Graph} {P2 : List Node}
    {u : Node} {rest2 : List Node} {e : Err}
    (hWF : g.WF) (hnodes : g.nodes = P2 ++ u :: rest2)
    (hP2 : ∀ x ∈ P2, StableSkip R g x)
    (herr : ∀ a b : Int, processNode R ⟨g, a, b⟩ u.nid = .error e) :
    (runPass R g).graph = g ∧ (runPass R g).err = some e := by
  have hstep : ∀ i ∈ P2.map (fun x => x.nid), ∀ a1 b1 : Int,
      ∃ a2 b2, processNode R ⟨g, a1, b1⟩ i = .ok ⟨g, a2, b2⟩ := by
    intro i hi a1 b1
    obtain ⟨x, hx, rfl⟩ := List.mem_map.mp hi
    have hxg : x ∈ g.nodes := by
      rw [hnodes]
      exact List.mem_append.mpr (Or.inl hx)
    exact stableSkip_processNode (getNode_self hWF.1 hxg) (hP2 x hx) a1 b1
  obtain ⟨a2, b2, hrunP⟩ := runNodes_skips R g (P2.map (fun x => x.nid)) int64Max int64Min
    hstep
  have hids : g.nodes.map (fun x => x.nid) =
      P2.map (fun x => x.nid) ++ (u.nid :: rest2.map (fun x => x.nid)) := by
    rw [hnodes]
    simp
  have hfull : runNodes R (initialState g) (g.nodes.map (fun x => x.nid)) =
      ((⟨g, a2, b2⟩ : PassState), some e) := by
    rw [hids, runNodes_append]
    have hrunP' : runNodes R (initialState g) (P2.map (fun x => x.nid)) =
        ((⟨g, a2, b2⟩ : PassState), none) := hrunP
    rw [hrunP']
    show runNodes R (⟨g, a2, b2⟩ : PassState) (u.nid :: rest2.map (fun x => x.nid)) = _
    have h1 : processNode R ⟨g, a2, b2⟩ u.nid = .error e := herr a2 b2
    simp only [runNodes, h1]
  rw [runPass_eq_of_runNodes_some hfull]
  exact ⟨rfl, rfl⟩

/-- C6: Running the pass twice in succession on a valid graph produces a
    graph structurally identical to running it once, with the same returned
    status: after a successful first run every surviving node — in
    particular every replica, all of whose data consumers resolve to the
    replica's own single destination device — fails one of the eligibility
    tests, so the second run rewrites nothing; after a failed first run the
    second run replays the same skips and fails on the same node with the
    same error, again leaving the graph unchanged. -/
theorem c6_idempotent (R : DeviceNameResolver) (g : Graph) (hWF : g.WF) :
    (runPass R ((runPass R g).graph)).graph = (runPass R g).graph
    ∧ (runPass R ((runPass R g).graph)).err = (runPass R g).err := by
  have hmain := runNodes_stable R g.nodes (initialState g) [] [] (by simp [initialState]) hWF
    (by intro x hx; cases hx) (by intro x hx; cases hx)
  obtain ⟨hWF1, hnone, hsome⟩ := hmain
  rcases hres : runNodes R (initialState g) (g.nodes.map (fun x => x.nid)) with ⟨s1, oe⟩
  rw [hres] at hWF1 hnone hsome
  cases oe with
  | none =>
    have hpass := runPass_eq_of_runNodes_none hres
    have hstable := hnone rfl
    have h2 := runPass_of_all_stable hWF1 hstable
    rw [hpass]
    exact ⟨h2.1, h2.2⟩
  | some e =>
    have hpass := runPass_eq_of_runNodes_some hres
    obtain ⟨P2, u, rest2, hn2, hP2, herr2⟩ := hsome e rfl
    have h2 := runPass_of_error_prefix hWF1 hn2 hP2 herr2
    rw [hpass]
    exact ⟨h2.1, h2.2⟩

theorem c6_idempotent_witness :
    (runPass toyR ((runPass toyR gEx).graph)).graph = (runPass toyR gEx).graph
    ∧ (runPass toyR ((runPass toyR gEx).graph)).err = (runPass toyR gEx).err :=
  c6_idempotent toyR gEx (by decide)

end ReplicateConstants
